import Mathlib

/-!
# Verification of the kubernetes-yaml-completion validation core

Shallow embedding of the repository's structural parser and schema
evaluation engine (`src/server/src/validation/schemaValidator.ts`,
`src/server/src/validation/validationResult.ts` = `src/unnamed/part_002`,
`src/server/src/validation/schemaCollector.ts`,
`src/server/src/parser/jsonDocument.ts`, `src/server/src/parser/astConverter.ts`,
`src/server/src/parser/yamlDocument.ts`, the YAML parser `src/unnamed/part_000`,
and `src/server/src/utils/validation.ts`).

Modelling conventions:
* TypeScript/JavaScript numbers are embedded as exact fractions (`JSNum`),
  compared by value.  The only number-theoretic operation the validator
  performs, `multipleOf` checking, normalises its operands through their
  shortest decimal string (`normalizeFloats` parses
  `Number.prototype.toString()`); for numbers with a finite decimal
  expansion — every number appearing in this development — the exact model
  agrees with the JavaScript runtime.
* Mutation is embedded as explicit state passing: `ValidationResult` and the
  schema collector are threaded through every function and returned.
* `parent` back-pointers of AST nodes are embedded as an extra argument that
  carries exactly the parent data the validator reads (the parent's span and,
  when the parent is a property, its key span).
* Recursion of `SchemaValidator.validate` is embedded with an explicit fuel
  parameter (`validateFuel`); fuel is consumed once per nested `validate`
  call, so the call depth — not the call count — is bounded by it, and the
  public entry points supply fuel far exceeding any possible nesting depth
  (`fuelBound`).  All universal theorems are proved for every fuel value.
* Keywords whose semantics rest on the JavaScript regular-expression engine
  (`pattern`, `patternProperties`, `format`) are outside the embedding; the
  embedded schema type simply has no such fields, i.e. the model covers the
  schemas that do not use them.  None of the claims concerns them.
-/

namespace KYaml

/-! ## Schema drafts (`vscode-json-languageservice` `SchemaDraft`)

The enum's members in declaration order; only the order matters
(`context.schemaDraft >= SchemaDraft.v2020_12`), so they are embedded as
naturals. -/

namespace SchemaDraft

def v3 : ℕ := 0
def v4 : ℕ := 1
def v6 : ℕ := 2
def v7 : ℕ := 3
def v2019_09 : ℕ := 4
def v2020_12 : ℕ := 5

end SchemaDraft

/-- `DiagnosticSeverity` of `vscode-json-languageservice` (numeric values). -/
inductive DiagnosticSeverity where
  | error
  | warning
  | information
  | hint
deriving DecidableEq, Repr

/-- The `ErrorCode`s the validator attaches to problems. -/
inductive ErrorCode where
  | enumValueMismatch
  | deprecated
deriving DecidableEq, Repr

/-! ## JavaScript numbers

Embedded as exact fractions (`JSNum`, a numerator/denominator pair compared
and computed by value, so that every operation reduces in the kernel).  The
JavaScript runtime works on IEEE doubles; the only number-theoretic
operation the validator performs, `multipleOf` checking, normalises its
operands through their shortest decimal string (`normalizeFloats` parses
`Number.prototype.toString()` with
`^(-?\d+)(?:\.(\d+))?(?:e([-+]\d+))?$` and returns the concatenated decimal
digits `value` with the number of fractional digits minus the decimal
exponent `multiplier`, i.e. `float = value * 10 ^ (-multiplier)`).  For a
number with a finite shortest decimal expansion this is computed exactly
below; a fraction without one yields `none` (a `toString` output the
regular expression does not describe).  `NaN`/`Infinity` are outside the
model. -/

/-- An exact fraction `num / den`; every construction keeps `0 < den`.
Comparisons are by value (cross-multiplication), mirroring JavaScript's
value comparison of numbers. -/
structure JSNum where
  num : ℤ
  den : ℕ := 1
deriving DecidableEq, Repr

/-- Euclidean gcd with explicit fuel (kernel-reducible); `fuel ≥ b`
suffices. -/
def ngcd : ℕ → ℕ → ℕ → ℕ
  | 0, a, _ => a
  | fuel + 1, a, b => if b = 0 then a else ngcd fuel b (a % b)

namespace JSNum

/-- The integer `n` as a number. -/
def ofInt (n : ℤ) : JSNum := ⟨n, 1⟩

/-- The natural `n` as a number. -/
def ofNat (n : ℕ) : JSNum := ⟨(n : ℤ), 1⟩

/-- Value equality (`===` between two numbers). -/
def beqv (a b : JSNum) : Bool := a.num * (b.den : ℤ) == b.num * (a.den : ℤ)

/-- Value order `<`. -/
def ltv (a b : JSNum) : Bool := decide (a.num * (b.den : ℤ) < b.num * (a.den : ℤ))

/-- Value order `≤`. -/
def lev (a b : JSNum) : Bool := decide (a.num * (b.den : ℤ) ≤ b.num * (a.den : ℤ))

def mul (a b : JSNum) : JSNum := ⟨a.num * b.num, a.den * b.den⟩

def sub (a b : JSNum) : JSNum :=
  ⟨a.num * (b.den : ℤ) - b.num * (a.den : ℤ), a.den * b.den⟩

/-- Division (sign moved to the numerator so the denominator stays a
natural; division by zero yields denominator `0` and is guarded at every
use). -/
def div (a b : JSNum) : JSNum :=
  if 0 ≤ b.num then ⟨a.num * (b.den : ℤ), a.den * b.num.toNat⟩
  else ⟨-(a.num * (b.den : ℤ)), a.den * (-b.num).toNat⟩

/-- The number is zero. -/
def isZero (a : JSNum) : Bool := a.num == 0

/-- `Number.isInteger` — by value. -/
def isInt (a : JSNum) : Bool := a.den ≠ 0 && a.num % (a.den : ℤ) == 0

/-- Truncation toward zero (the JavaScript float→int truncation defining
`%`). -/
def trunc (a : JSNum) : ℤ := a.num.tdiv (a.den : ℤ)

/-- The fraction in lowest terms. -/
def reduce (a : JSNum) : JSNum :=
  let g := ngcd (a.den + 1) a.den a.num.natAbs
  if g = 0 then a else ⟨a.num / (g : ℤ), a.den / g⟩

end JSNum

/-- JavaScript `%` (floating-point remainder) by value:
`a % b = a - b * trunc (a / b)`.  `none` models the `NaN` produced when
`b = 0`. -/
def jsRem (a b : JSNum) : Option JSNum :=
  if b.isZero then none
  else some (a.sub (b.mul (JSNum.ofInt (JSNum.trunc (a.div b)))))

/-- Extract the multiplicity of `p` in `n`: returns `(k, m)` with
`n = p ^ k * m` and `¬ p ∣ m` (for `2 ≤ p`, `1 ≤ n`). -/
def factorOut (p : ℕ) : ℕ → ℕ → ℕ × ℕ
  | 0, n => (0, n)
  | fuel + 1, n =>
    if 2 ≤ p ∧ n % p = 0 ∧ 0 < n then
      let r := factorOut p fuel (n / p)
      (r.1 + 1, r.2)
    else (0, n)

/-- Shortest-decimal normal form: `some (v, m)` with `q = v / 10 ^ m` and
`m` minimal, or `none` when `q` has no finite decimal expansion (or a zero
denominator).  Models `normalizeFloats` applied to the JavaScript
`toString` output. -/
def normalizeFloats (q : JSNum) : Option (ℤ × ℕ) :=
  if q.den = 0 then none
  else
    let r := q.reduce
    let d := r.den
    let a := (factorOut 2 d d).1
    let rest2 := (factorOut 2 d d).2
    let b := (factorOut 5 rest2 rest2).1
    if (factorOut 5 rest2 rest2).2 = 1 then
      let s := max a b
      some (r.num * ((10 : ℤ) ^ s / (d : ℤ)), s)
    else none

/-- Decimal rendering of an integer-scaled decimal (used only inside
diagnostic messages). -/
def decimalString (v : ℤ) (s : ℕ) : String :=
  if s = 0 then toString v
  else
    let n := v.natAbs
    let digits := toString n
    let digits := if digits.length ≤ s then
      String.mk (List.replicate (s + 1 - digits.length) '0') ++ digits else digits
    let cut := digits.length - s
    (if v < 0 then "-" else "") ++ digits.take cut ++ "." ++ digits.drop cut

/-- JavaScript number rendering for messages (finite-decimal numbers only;
others cannot arise on the message paths of this development). -/
def numToString (q : JSNum) : String :=
  match normalizeFloats q with
  | some (v, s) => decimalString v s
  | none => toString q.num ++ "/" ++ toString q.den

/-! ## JSON values (`getNodeValue` results, `enum`/`const` candidates) -/

/-- A JSON value as produced by `jsonc-parser`'s `getNodeValue` and as held
in `schema.enum` / `schema.const`. -/
inductive JValue where
  | null
  | bool (b : Bool)
  | num (q : JSNum)
  | str (s : String)
  | arr (items : List JValue)
  | obj (fields : List (String × JValue))

/-- Whether a value is a JavaScript primitive (compared by value under
`===`); arrays and objects are compared by reference. -/
def JValue.isPrimitive : JValue → Bool
  | .null | .bool _ | .num _ | .str _ => true
  | .arr _ | .obj _ => false

/-- JavaScript strict equality `===` between two values drawn from *distinct*
positions of a freshly converted value tree: primitives compare by value,
objects and arrays are distinct references and never compare equal.  (`NaN`
does not occur in the model.) -/
def jsStrictEq : JValue → JValue → Bool
  | .null, .null => true
  | .bool a, .bool b => a == b
  | .num a, .num b => a.beqv b
  | .str a, .str b => a == b
  | _, _ => false

mutual

/-- Structural size of a value (used as recursion fuel for `equals`,
bounding the nesting depth). -/
def jvFuel : JValue → ℕ
  | .null | .bool _ | .num _ | .str _ => 1
  | .arr xs => 1 + jvlFuel xs
  | .obj fs => 1 + jvfFuel fs

def jvlFuel : List JValue → ℕ
  | [] => 0
  | x :: xs => jvFuel x + jvlFuel xs

def jvfFuel : List (String × JValue) → ℕ
  | [] => 0
  | (_, v) :: fs => jvFuel v + jvfFuel fs

end

/-- `equals` with explicit fuel (one unit per nesting level; `jvFuel` of
either side suffices). -/
def equalsFuel : ℕ → JValue → JValue → Bool
  | 0, _, _ => false
  | f + 1, a, b =>
    match a, b with
    | .null, .null => true
    | .bool x, .bool y => x == y
    | .num x, .num y => x.beqv y
    | .str x, .str y => x == y
    | .arr xs, .arr ys =>
      xs.length == ys.length && (xs.zip ys).all fun p => equalsFuel f p.1 p.2
    | .obj xs, .obj ys =>
      xs.length == ys.length &&
        xs.all fun p =>
          match ys.lookup p.1 with
          | some w => equalsFuel f p.2 w
          | none => false
    | _, _ => false

/-- Modelled from the spec: deep structural equality (§4.4 step 6, "value
equality (deep structural equality)") — the implementation `equals` lives in
`src/server/src/utils/objects.ts`, which is not under `src/`.  Primitives
compare by value; arrays pairwise; objects as key/value sets
(duplicate-free key lists assumed, as JavaScript objects cannot carry
duplicate keys). -/
def equals (a b : JValue) : Bool := equalsFuel (jvFuel a + 1) a b

mutual

/-- Minimal `JSON.stringify` (used only inside diagnostic messages). -/
def jsonStringify : JValue → String
  | .null => "null"
  | .bool b => if b then "true" else "false"
  | .num q => numToString q
  | .str s => "\x22" ++ s ++ "\x22"
  | .arr xs => "[" ++ jsonStringifyList xs ++ "]"
  | .obj xs => "\x7b" ++ jsonStringifyFields xs ++ "\x7d"

/-- Comma-separated stringification of array items. -/
def jsonStringifyList : List JValue → String
  | [] => ""
  | [x] => jsonStringify x
  | x :: xs => jsonStringify x ++ "," ++ jsonStringifyList xs

/-- Comma-separated stringification of object fields. -/
def jsonStringifyFields : List (String × JValue) → String
  | [] => ""
  | [(k, v)] => "\x22" ++ k ++ "\x22:" ++ jsonStringify v
  | (k, v) :: xs => "\x22" ++ k ++ "\x22:" ++ jsonStringify v ++ "," ++ jsonStringifyFields xs

end

/-! ## AST nodes (`astJsonTypes.ts`)

The seven node variants.  `parent` back-references are not stored in the
tree (ownership runs top-down); the validator receives the parent data it
reads through the `ParentInfo` argument below.  A property's key node is a
string node and is stored inline as its span plus value (`keyOffset`,
`keyLength`, `keyValue`); `colonOffset` is never read by the validator and
is omitted. -/

mutual

/-- Non-property AST nodes.  `NumberASTNodeImpl` initialises `isInteger` to
`true` and the AST converter never updates it, but the field is kept since
the type check reads it. -/
inductive JNode where
  | obj (offset length : ℤ) (properties : List JProperty)
  | arr (offset length : ℤ) (items : List JNode)
  | str (offset length : ℤ) (value : String)
  | num (offset length : ℤ) (value : JSNum) (isInteger : Bool)
  | boolean (offset length : ℤ) (value : Bool)
  | nullNode (offset length : ℤ)

/-- `PropertyASTNodeImpl`: span, inline key string node, optional value. -/
inductive JProperty where
  | mk (offset length : ℤ) (keyOffset keyLength : ℤ) (keyValue : String)
      (valueNode : Option JNode)

end

/-- Any AST node, property or not (the argument type of
`SchemaValidator.validate`). -/
inductive ASTN where
  | node (n : JNode)
  | prop (p : JProperty)

def JNode.offset : JNode → ℤ
  | .obj o _ _ | .arr o _ _ | .str o _ _ | .num o _ _ _ | .boolean o _ _
  | .nullNode o _ => o

def JNode.length : JNode → ℤ
  | .obj _ l _ | .arr _ l _ | .str _ l _ | .num _ l _ _ | .boolean _ l _
  | .nullNode _ l => l

/-- `node.type` as the string the validator compares against `schema.type`. -/
def JNode.typeName : JNode → String
  | .obj .. => "object"
  | .arr .. => "array"
  | .str .. => "string"
  | .num .. => "number"
  | .boolean .. => "boolean"
  | .nullNode .. => "null"

def JProperty.offset : JProperty → ℤ | .mk o _ _ _ _ _ => o
def JProperty.length : JProperty → ℤ | .mk _ l _ _ _ _ => l
def JProperty.keyOffset : JProperty → ℤ | .mk _ _ ko _ _ _ => ko
def JProperty.keyLength : JProperty → ℤ | .mk _ _ _ kl _ _ => kl
def JProperty.keyValue : JProperty → String | .mk _ _ _ _ kv _ => kv
def JProperty.valueNode : JProperty → Option JNode | .mk _ _ _ _ _ v => v

/-- The property's key as the string AST node the converter built for it
(validated by `propertyNames`). -/
def JProperty.keyNode (p : JProperty) : JNode :=
  .str p.keyOffset p.keyLength p.keyValue

def ASTN.offset : ASTN → ℤ
  | .node n => n.offset
  | .prop p => p.offset

def ASTN.length : ASTN → ℤ
  | .node n => n.length
  | .prop p => p.length

/-- `ValidationUtil.contains` (validation.ts, lines 30‑35) with the default
`includeRightBound = false`, as used by the schema collector. -/
def containsOffset (n : ASTN) (offset : ℤ) : Bool :=
  decide (n.offset ≤ offset ∧ offset < n.offset + n.length)

/-! ## `getNodeValue` (`jsonc-parser`, reached through
`ValidationUtil.getNodeValue`)

Arrays map their items; objects assign `obj[key] = value` for every property
that has a value node (later assignments to the same key overwrite the
earlier value in place). -/

/-- JavaScript object assignment `obj[k] = v` on an ordered association
list: overwrite in place if the key exists, else append. -/
def jsAssign (fields : List (String × JValue)) (k : String) (v : JValue) :
    List (String × JValue) :=
  match fields with
  | [] => [(k, v)]
  | (k', w) :: rest =>
    if k' = k then (k', v) :: rest else (k', w) :: jsAssign rest k v

mutual

/-- `getNodeValue` on a non-property node. -/
def getNodeValue : JNode → JValue
  | .obj _ _ props => .obj (getNodeValueProps props [])
  | .arr _ _ items => .arr (getNodeValueList items)
  | .str _ _ v => .str v
  | .num _ _ v _ => .num v
  | .boolean _ _ v => .bool v
  | .nullNode _ _ => .null

/-- `getNodeValue` on each array item. -/
def getNodeValueList : List JNode → List JValue
  | [] => []
  | n :: rest => getNodeValue n :: getNodeValueList rest

/-- Fold the object's properties into an association list via `jsAssign`,
skipping value-less properties. -/
def getNodeValueProps : List JProperty → List (String × JValue) →
    List (String × JValue)
  | [], acc => acc
  | .mk _ _ _ _ kv (some v) :: rest, acc =>
    getNodeValueProps rest (jsAssign acc kv (getNodeValue v))
  | .mk _ _ _ _ _ none :: rest, acc => getNodeValueProps rest acc

end

/-! ## Problems and messages (`validationResult.ts`, `l10n.t` call sites) -/

/-- `IRange`. -/
structure IRange where
  offset : ℤ
  length : ℤ
deriving DecidableEq, Repr

/-- `IProblem`. -/
structure IProblem where
  location : IRange
  severity : Option DiagnosticSeverity := none
  code : Option ErrorCode := none
  message : String
deriving DecidableEq, Repr

/-! The diagnostic message texts built by the validator (each models the
corresponding `l10n.t` call site in schemaValidator.ts). -/

namespace Msg

def incorrectTypeOneOf (types : List String) : String :=
  "Incorrect type. Expected one of " ++ String.intercalate ", " types ++ "."

def incorrectType (t : String) : String :=
  "Incorrect type. Expected \x22" ++ t ++ "\x22."

def matchesDisallowed : String := "Matches a schema that is not allowed."

def matchesMultiple : String := "Matches multiple schemas when only one must validate."

def enumMismatch (enumValues : List JValue) : String :=
  "Value is not accepted. Valid values: " ++
    String.intercalate ", " (enumValues.map jsonStringify) ++ "."

def constMismatch (v : JValue) : String :=
  "Value must be " ++ jsonStringify v ++ "."

def deprecatedDefault : String := "Value is deprecated"

def notDivisible (m : JSNum) : String :=
  "Value is not divisible by " ++ numToString m ++ "."

def belowExclusiveMinimum (m : JSNum) : String :=
  "Value is below the exclusive minimum of " ++ numToString m ++ "."

def aboveExclusiveMaximum (m : JSNum) : String :=
  "Value is above the exclusive maximum of " ++ numToString m ++ "."

def belowMinimum (m : JSNum) : String :=
  "Value is below the minimum of " ++ numToString m ++ "."

def aboveMaximum (m : JSNum) : String :=
  "Value is above the maximum of " ++ numToString m ++ "."

def shorterThanMinLength (m : JSNum) : String :=
  "String is shorter than the minimum length of " ++ numToString m ++ "."

def longerThanMaxLength (m : JSNum) : String :=
  "String is longer than the maximum length of " ++ numToString m ++ "."

def tooManyItemsExpected (n : ℕ) : String :=
  "Array has too many items according to schema. Expected " ++ toString n ++ " or fewer."

def missingRequiredItem : String := "Array does not contain required item."

def tooFewContains (m : JSNum) : String :=
  "Array has too few items that match the contains contraint. Expected " ++
    numToString m ++ " or more."

def tooManyContains (m : JSNum) : String :=
  "Array has too many items that match the contains contraint. Expected " ++
    numToString m ++ " or less."

def unevaluatedItem : String := "Item does not match any validation rule from the array."

def tooFewItems (m : JSNum) : String :=
  "Array has too few items. Expected " ++ numToString m ++ " or more."

def tooManyItems (m : JSNum) : String :=
  "Array has too many items. Expected " ++ numToString m ++ " or fewer."

def duplicateItems : String := "Array has duplicate items."

def missingProperty (name : String) : String :=
  "Missing property \x22" ++ name ++ "\x22."

def propertyNotAllowed (name : String) : String :=
  "Property " ++ name ++ " is not allowed."

def tooManyProperties (m : JSNum) : String :=
  "Object has more properties than limit of " ++ numToString m ++ "."

def tooFewProperties (m : JSNum) : String :=
  "Object has fewer properties than the required number of " ++ numToString m

def missingDependentProperty (requiredProp key : String) : String :=
  "Object is missing property " ++ requiredProp ++ " required by property " ++ key ++ "."

end Msg

/-! ## `ValidationResult` (`src/unnamed/part_002`) -/

/-- The mutable per-branch accumulator.  `processedProperties` is a
JavaScript `Set` (insertion-ordered, duplicate-free); it is embedded as the
insertion-ordered duplicate-free list of its elements. -/
structure ValidationResult where
  problems : List IProblem := []
  propertiesMatches : ℕ := 0
  processedProperties : List String := []
  propertiesValueMatches : ℕ := 0
  primaryValueMatches : ℕ := 0
  enumValueMatch : Bool := false
  enumValues : Option (List JValue) := none

namespace ValidationResult

/-- `new ValidationResult()`. -/
def empty : ValidationResult := {}

/-- `hasProblems()`. -/
def hasProblems (r : ValidationResult) : Bool := !r.problems.isEmpty

/-- JavaScript `Set.prototype.add`. -/
def setAdd (s : List String) (x : String) : List String :=
  if x ∈ s then s else s ++ [x]

/-- `mergeProcessedProperties`: `other.processedProperties.forEach(p => this.processedProperties.add(p))`. -/
def mergeProcessedProperties (r other : ValidationResult) : ValidationResult :=
  { r with processedProperties := other.processedProperties.foldl setAdd r.processedProperties }

/-- `merge` (part_002, lines 40‑45): concatenate problems, sum
`propertiesMatches` and `propertiesValueMatches`, union processed
properties.  (`primaryValueMatches`, `enumValueMatch` and `enumValues` are
left untouched.) -/
def merge (r other : ValidationResult) : ValidationResult :=
  mergeProcessedProperties
    { r with
      problems := r.problems ++ other.problems
      propertiesMatches := r.propertiesMatches + other.propertiesMatches
      propertiesValueMatches := r.propertiesValueMatches + other.propertiesValueMatches }
    other

/-- `mergeEnumValues` (part_002, lines 47‑64): when neither side matched its
enum and both carry candidate lists, concatenate the lists and rewrite every
enum-mismatch problem's message to cite the combined list. -/
def mergeEnumValues (r other : ValidationResult) : ValidationResult :=
  if !r.enumValueMatch ∧ !other.enumValueMatch ∧ r.enumValues.isSome ∧
      other.enumValues.isSome then
    let combined := r.enumValues.getD [] ++ other.enumValues.getD []
    { r with
      enumValues := some combined
      problems := r.problems.map fun p =>
        if p.code = some .enumValueMismatch then
          { p with message := Msg.enumMismatch combined }
        else p }
  else r

/-- `mergePropertyMatch` (part_002, lines 66‑82). -/
def mergePropertyMatch (r propertyResult : ValidationResult) : ValidationResult :=
  let r := { r with
    problems := r.problems ++ propertyResult.problems
    propertiesMatches := r.propertiesMatches + 1 }
  let r := if propertyResult.enumValueMatch ∨
      (¬ propertyResult.hasProblems ∧ 0 < propertyResult.propertiesMatches) then
    { r with propertiesValueMatches := r.propertiesValueMatches + 1 }
  else r
  if propertyResult.enumValueMatch ∧
      (propertyResult.enumValues.map List.length) = some 1 then
    { r with primaryValueMatches := r.primaryValueMatches + 1 }
  else r

/-- `compare` (part_002, lines 88‑103): sign-significant lexicographic
comparison on (no problems, enum match, `primaryValueMatches`,
`propertiesValueMatches`, `propertiesMatches`). -/
def compare (r other : ValidationResult) : ℤ :=
  if r.hasProblems ≠ other.hasProblems then
    if r.hasProblems then -1 else 1
  else if r.enumValueMatch ≠ other.enumValueMatch then
    if other.enumValueMatch then -1 else 1
  else if r.primaryValueMatches ≠ other.primaryValueMatches then
    (r.primaryValueMatches : ℤ) - other.primaryValueMatches
  else if r.propertiesValueMatches ≠ other.propertiesValueMatches then
    (r.propertiesValueMatches : ℤ) - other.propertiesValueMatches
  else
    (r.propertiesMatches : ℤ) - other.propertiesMatches

end ValidationResult

/-! ## Schemas (`types/jsonSchema.ts`)

`JSONSchemaRef = JSONSchema | boolean`.  The schema type is the recursive
knot of a parametric record of keyword fields; every field the validator
reads is present except the regular-expression based keywords (`pattern`,
`patternProperties`, `format`, `patternErrorMessage`), which are outside the
embedding (see the file header). -/

/-- The keyword fields of a schema, parametric in the sub-schema-reference
type `R`.  Field names follow the source; `not`/`if`/`then`/`else` are Lean
keywords and carry an `S` suffix; `enum` and `const` are spelled `enumVals`
and `constVal`; `$schema` is `dollarSchema`;
`x-kubernetes-group-version-kind` is `gvk` (the validator only ever tests it
for presence). -/
structure SchemaData (R : Type) where
  type : Option (Sum String (List String)) := none
  errorMessage : Option String := none
  enumVals : Option (List JValue) := none
  constVal : Option JValue := none
  deprecationMessage : Option String := none
  deprecated : Bool := false
  multipleOf : Option JSNum := none
  minimum : Option JSNum := none
  maximum : Option JSNum := none
  exclusiveMinimum : Option (Sum Bool JSNum) := none
  exclusiveMaximum : Option (Sum Bool JSNum) := none
  minLength : Option JSNum := none
  maxLength : Option JSNum := none
  minItems : Option JSNum := none
  maxItems : Option JSNum := none
  minContains : Option JSNum := none
  maxContains : Option JSNum := none
  minProperties : Option JSNum := none
  maxProperties : Option JSNum := none
  uniqueItems : Bool := false
  required : Option (List String) := none
  dependentRequired : Option (List (String × List String)) := none
  dollarSchema : Option String := none
  gvk : Option (List JValue) := none
  allOf : Option (List R) := none
  anyOf : Option (List R) := none
  oneOf : Option (List R) := none
  notS : Option R := none
  ifS : Option R := none
  thenS : Option R := none
  elseS : Option R := none
  items : Option (Sum R (List R)) := none
  prefixItems : Option (List R) := none
  additionalItems : Option R := none
  containsS : Option R := none
  unevaluatedItems : Option R := none
  properties : Option (List (String × R)) := none
  additionalProperties : Option R := none
  unevaluatedProperties : Option R := none
  dependentSchemas : Option (List (String × R)) := none
  dependencies : Option (List (String × Sum (List String) R)) := none
  propertyNames : Option R := none

/-- A schema object; `Sum Bool JSONSchema` is a `JSONSchemaRef` (boolean
shorthand or schema). -/
inductive JSONSchema where
  | mk (data : SchemaData (Sum Bool JSONSchema))

/-- A `JSONSchemaRef`. -/
abbrev JSONSchemaRef := Sum Bool JSONSchema

def JSONSchema.data : JSONSchema → SchemaData JSONSchemaRef
  | .mk d => d

namespace JSONSchema

def type (s : JSONSchema) := s.data.type
def errorMessage (s : JSONSchema) := s.data.errorMessage
def enumVals (s : JSONSchema) := s.data.enumVals
def constVal (s : JSONSchema) := s.data.constVal
def deprecationMessage (s : JSONSchema) := s.data.deprecationMessage
def deprecated (s : JSONSchema) := s.data.deprecated
def multipleOf (s : JSONSchema) := s.data.multipleOf
def minimum (s : JSONSchema) := s.data.minimum
def maximum (s : JSONSchema) := s.data.maximum
def exclusiveMinimum (s : JSONSchema) := s.data.exclusiveMinimum
def exclusiveMaximum (s : JSONSchema) := s.data.exclusiveMaximum
def minLength (s : JSONSchema) := s.data.minLength
def maxLength (s : JSONSchema) := s.data.maxLength
def minItems (s : JSONSchema) := s.data.minItems
def maxItems (s : JSONSchema) := s.data.maxItems
def minContains (s : JSONSchema) := s.data.minContains
def maxContains (s : JSONSchema) := s.data.maxContains
def minProperties (s : JSONSchema) := s.data.minProperties
def maxProperties (s : JSONSchema) := s.data.maxProperties
def uniqueItems (s : JSONSchema) := s.data.uniqueItems
def required (s : JSONSchema) := s.data.required
def dependentRequired (s : JSONSchema) := s.data.dependentRequired
def dollarSchema (s : JSONSchema) := s.data.dollarSchema
def gvk (s : JSONSchema) := s.data.gvk
def allOf (s : JSONSchema) := s.data.allOf
def anyOf (s : JSONSchema) := s.data.anyOf
def oneOf (s : JSONSchema) := s.data.oneOf
def notS (s : JSONSchema) := s.data.notS
def ifS (s : JSONSchema) := s.data.ifS
def thenS (s : JSONSchema) := s.data.thenS
def elseS (s : JSONSchema) := s.data.elseS
def items (s : JSONSchema) := s.data.items
def prefixItems (s : JSONSchema) := s.data.prefixItems
def additionalItems (s : JSONSchema) := s.data.additionalItems
def containsS (s : JSONSchema) := s.data.containsS
def unevaluatedItems (s : JSONSchema) := s.data.unevaluatedItems
def properties (s : JSONSchema) := s.data.properties
def additionalProperties (s : JSONSchema) := s.data.additionalProperties
def unevaluatedProperties (s : JSONSchema) := s.data.unevaluatedProperties
def dependentSchemas (s : JSONSchema) := s.data.dependentSchemas
def dependencies (s : JSONSchema) := s.data.dependencies
def propertyNames (s : JSONSchema) := s.data.propertyNames

end JSONSchema

namespace ValidationUtil

/-- `ValidationUtil.asSchema` (validation.ts, lines 45‑52): resolve the
boolean shorthand — `true ↦ {}`, `false ↦ {not: {}}`. -/
def asSchema : JSONSchemaRef → JSONSchema
  | .inl b => if b then .mk {} else .mk { notS := some (.inr (.mk {})) }
  | .inr s => s

/-- `ValidationUtil.getSchemaDraft` (validation.ts, lines 37‑43): the fixed
`$schema`-URI → draft table with the caller's fallback. -/
def getSchemaDraft (s : JSONSchema) (fallBack : ℕ := SchemaDraft.v2020_12) : ℕ :=
  match s.dollarSchema with
  | some id =>
    if id = "http://json-schema.org/draft-03/schema#" then SchemaDraft.v3
    else if id = "http://json-schema.org/draft-04/schema#" then SchemaDraft.v4
    else if id = "http://json-schema.org/draft-06/schema#" then SchemaDraft.v6
    else if id = "http://json-schema.org/draft-07/schema#" then SchemaDraft.v7
    else if id = "https://json-schema.org/draft/2019-09/schema" then SchemaDraft.v2019_09
    else if id = "https://json-schema.org/draft/2020-12/schema" then SchemaDraft.v2020_12
    else fallBack
  | none => fallBack

end ValidationUtil

/-- Replace a schema's top-level `x-kubernetes-group-version-kind` field
(used to state that the validator's diagnostics do not depend on the
vendor-discriminator field). -/
def setGVK (g : Option (List JValue)) : JSONSchema → JSONSchema
  | .mk d => .mk { d with gvk := g }

/-- `setGVK` on a schema reference (boolean shorthands are unchanged). -/
def setGVKRef (g : Option (List JValue)) : JSONSchemaRef → JSONSchemaRef
  | .inl b => .inl b
  | .inr s => .inr (setGVK g s)

/-! ## Schema collectors (`schemaCollector.ts`) -/

/-- `IApplicableSchema`.  Only non-property nodes are ever added (the
validator adds the node after property delegation).  The optional `inverted`
flag's absence reads as `false` (`!undefined = true` on flipping). -/
structure IApplicableSchema where
  node : JNode
  schema : JSONSchema
  inverted : Bool := false

/-! Structural equality on AST nodes, used to embed the collector's
`node !== this.exclude` reference comparison.  JavaScript compares object
identity; distinct AST nodes of one parse are structurally distinct in
practice (distinct spans), and every theorem below instantiates
`exclude := none`, where the two semantics coincide trivially. -/

mutual

/-- Structural equality of non-property nodes. -/
def jnodeBeq : JNode → JNode → Bool
  | .obj o l ps, .obj o' l' ps' => o == o' && l == l' && jpropListBeq ps ps'
  | .arr o l xs, .arr o' l' xs' => o == o' && l == l' && jnodeListBeq xs xs'
  | .str o l v, .str o' l' v' => o == o' && l == l' && v == v'
  | .num o l v i, .num o' l' v' i' => o == o' && l == l' && v == v' && i == i'
  | .boolean o l v, .boolean o' l' v' => o == o' && l == l' && v == v'
  | .nullNode o l, .nullNode o' l' => o == o' && l == l'
  | _, _ => false

/-- Structural equality of properties. -/
def jpropBeq : JProperty → JProperty → Bool
  | .mk o l ko kl kv v, .mk o' l' ko' kl' kv' v' =>
    o == o' && l == l' && ko == ko' && kl == kl' && kv == kv' &&
      (match v, v' with
       | some a, some b => jnodeBeq a b
       | none, none => true
       | _, _ => false)

/-- Pairwise structural equality of node lists. -/
def jnodeListBeq : List JNode → List JNode → Bool
  | [], [] => true
  | x :: xs, y :: ys => jnodeBeq x y && jnodeListBeq xs ys
  | _, _ => false

/-- Pairwise structural equality of property lists. -/
def jpropListBeq : List JProperty → List JProperty → Bool
  | [], [] => true
  | x :: xs, y :: ys => jpropBeq x y && jpropListBeq xs ys
  | _, _ => false

end

/-- Structural equality of arbitrary AST nodes. -/
def astnBeq : ASTN → ASTN → Bool
  | .node a, .node b => jnodeBeq a b
  | .prop a, .prop b => jpropBeq a b
  | _, _ => false

/-- `ISchemaCollector`: either the recording `SchemaCollector(focusOffset,
exclude)` or the `NoOpSchemaCollector` singleton. -/
inductive ISchemaCollector where
  | noOp
  | collector (focusOffset : ℤ) (exclude : Option ASTN)
      (schemas : List IApplicableSchema)

namespace ISchemaCollector

/-- The `schemas` member (the no-op collector's getter returns `[]`). -/
def schemas : ISchemaCollector → List IApplicableSchema
  | .noOp => []
  | .collector _ _ s => s

/-- `add` pushes onto the list; the no-op collector discards. -/
def add : ISchemaCollector → IApplicableSchema → ISchemaCollector
  | .noOp, _ => .noOp
  | .collector f e s, entry => .collector f e (s ++ [entry])

/-- `merge` appends the other collector's `schemas`. -/
def merge : ISchemaCollector → ISchemaCollector → ISchemaCollector
  | .noOp, _ => .noOp
  | .collector f e s, other => .collector f e (s ++ other.schemas)

/-- `include(node)`: no focus (`-1`) or span containment, and not the
excluded node.  (Named `includeNode` because `include` is a Lean keyword.) -/
def includeNode : ISchemaCollector → ASTN → Bool
  | .noOp, _ => true
  | .collector f e _, n =>
    (f == -1 || containsOffset n f) &&
      !(match e with | some x => astnBeq n x | none => false)

/-- `newSub`: a fresh unfocused recording collector (keeping `exclude`); the
no-op collector returns itself. -/
def newSub : ISchemaCollector → ISchemaCollector
  | .noOp => .noOp
  | .collector _ e _ => .collector (-1) e []

end ISchemaCollector

/-- `IEvaluationContext` / `EvaluationContext`. -/
structure EvaluationContext where
  schemaDraft : ℕ

/-! ## The schema evaluation engine (`schemaValidator.ts`)

`SchemaValidator.validate` mutates its `validationResult` and
`matchingSchemas` arguments; the embedding threads both as state and
returns the pair.  Parent back-pointers are passed as `ParentInfo`
(see the file header).  The recursion is parameterized by `recur`
(the nested `SchemaValidator.validate` call) and tied with fuel in
`validateFuel` below. -/

/-- What the validator reads from `node.parent`: the parent's span, and its
key node's span when the parent is a property. -/
inductive ParentInfo where
  | property (keyOffset keyLength offset length : ℤ)
  | other (offset length : ℤ)

def ParentInfo.offset : ParentInfo → ℤ
  | .property _ _ o _ => o
  | .other o _ => o

def ParentInfo.length : ParentInfo → ℤ
  | .property _ _ _ l => l
  | .other _ l => l

/-- The `ParentInfo` a property supplies to its value node. -/
def JProperty.asParent (p : JProperty) : ParentInfo :=
  .property p.keyOffset p.keyLength p.offset p.length

/-- Result/collector state threaded through the evaluation. -/
abbrev ValState := ValidationResult × ISchemaCollector

/-- The type of the recursive `SchemaValidator.validate` entry point. -/
abbrev Recur := Option ASTN → Option ParentInfo → JSONSchema → ValidationResult →
  ISchemaCollector → EvaluationContext → ValState

/-- Append one problem (`validationResult.problems.push`). -/
def ValidationResult.pushProblem (r : ValidationResult) (p : IProblem) : ValidationResult :=
  { r with problems := r.problems ++ [p] }

/-- `validationResult.processedProperties.add`. -/
def ValidationResult.addProcessed (r : ValidationResult) (x : String) : ValidationResult :=
  { r with processedProperties := ValidationResult.setAdd r.processedProperties x }

/-- The span of a node as a problem location. -/
def JNode.range (n : JNode) : IRange := ⟨n.offset, n.length⟩

/-- `matchesType` (lines 111‑113). -/
def matchesTypeOf (node : JNode) (t : String) : Bool :=
  node.typeName == t ||
    (t == "integer" && node.typeName == "number" &&
      (match node with | .num _ _ _ i => i | _ => false))

/-- The type check (lines 115‑131).  A single `schema.type` is tested for
JavaScript truthiness (the empty string is falsy). -/
def vTypeCheck (node : JNode) (schema : JSONSchema) (res : ValidationResult) :
    ValidationResult :=
  match schema.type with
  | some (.inr types) =>
    if ¬ types.any (matchesTypeOf node) then
      res.pushProblem ⟨node.range, none, none,
        schema.errorMessage.getD (Msg.incorrectTypeOneOf types)⟩
    else res
  | some (.inl t) =>
    if t ≠ "" ∧ ¬ matchesTypeOf node t then
      res.pushProblem ⟨node.range, none, none,
        schema.errorMessage.getD (Msg.incorrectType t)⟩
    else res
  | none => res

/-- The `allOf` section (lines 132‑146): every subschema against the same
node in a fresh sub-accumulator, all merged into the parent. -/
def vAllOf (recur : Recur) (node : JNode) (parent : Option ParentInfo)
    (refs : List JSONSchemaRef) (st : ValState) (ctx : EvaluationContext) : ValState :=
  refs.foldl
    (fun st ref =>
      let sub := recur (some (.node node)) parent (ValidationUtil.asSchema ref)
        ValidationResult.empty st.2.newSub ctx
      (st.1.merge sub.1, st.2.merge sub.2))
    st

/-- The `not` section (lines 147‑162): fresh sub-accumulator; emit
"matches disallowed" when the sub-evaluation is clean; add every
sub-collector entry to the parent with `inverted` negated. -/
def vNot (recur : Recur) (node : JNode) (parent : Option ParentInfo)
    (notRef : JSONSchemaRef) (st : ValState) (ctx : EvaluationContext) : ValState :=
  let sub := recur (some (.node node)) parent (ValidationUtil.asSchema notRef)
    ValidationResult.empty st.2.newSub ctx
  let res := if ¬ sub.1.hasProblems then
      st.1.pushProblem ⟨node.range, none, none, Msg.matchesDisallowed⟩
    else st.1
  let ms := sub.2.schemas.foldl
    (fun m e => m.add { e with inverted := !e.inverted }) st.2
  (res, ms)

/-- The `bestMatch` record of `testAlternatives` (lines 168‑170). -/
structure BestMatch where
  schema : JSONSchema
  validationResult : ValidationResult
  matchingSchemas : ISchemaCollector

/-- One iteration of the `testAlternatives` loop (lines 171‑213), updating
the `(matches, bestMatch)` state for one alternative's sub-run
`(subSchema, subRes, subMs)`. -/
def altStep (maxOneMatch : Bool) (st : List JSONSchema × Option BestMatch)
    (subSchema : JSONSchema) (subRes : ValidationResult) (subMs : ISchemaCollector) :
    List JSONSchema × Option BestMatch :=
  let matchList := if ¬ subRes.hasProblems then st.1 ++ [subSchema] else st.1
  match st.2 with
  | none => (matchList, some ⟨subSchema, subRes, subMs⟩)
  | some best =>
    if ¬ maxOneMatch ∧ ¬ subRes.hasProblems ∧ ¬ best.validationResult.hasProblems then
      -- no errors, both are equally good matches (lines 186‑196)
      (matchList, some { best with
        matchingSchemas := best.matchingSchemas.merge subMs
        validationResult :=
          ({ best.validationResult with
             propertiesMatches :=
               best.validationResult.propertiesMatches + subRes.propertiesMatches
             propertiesValueMatches :=
               best.validationResult.propertiesValueMatches + subRes.propertiesValueMatches
           }).mergeProcessedProperties subRes })
    else
      let compareResult := subRes.compare best.validationResult
      if 0 < compareResult then (matchList, some ⟨subSchema, subRes, subMs⟩)
      else if compareResult = 0 then
        (matchList, some { best with
          matchingSchemas := best.matchingSchemas.merge subMs
          validationResult := best.validationResult.mergeEnumValues subRes })
      else (matchList, some best)

/-- The sub-run of one alternative (lines 172‑175): fresh result, fresh
unfocused sub-collector. -/
def altSubRun (recur : Recur) (node : JNode) (parent : Option ParentInfo)
    (ms : ISchemaCollector) (ctx : EvaluationContext) (ref : JSONSchemaRef) : ValState :=
  recur (some (.node node)) parent (ValidationUtil.asSchema ref)
    ValidationResult.empty ms.newSub ctx

/-- The `testAlternatives` loop (lines 171‑213): fold `altStep` over the
alternatives' sub-runs, starting from no matches and no best match. -/
def altsFold (recur : Recur) (node : JNode) (parent : Option ParentInfo)
    (ms : ISchemaCollector) (ctx : EvaluationContext) (maxOneMatch : Bool)
    (alternatives : List JSONSchemaRef) : List JSONSchema × Option BestMatch :=
  alternatives.foldl
    (fun acc ref =>
      let subSchema := ValidationUtil.asSchema ref
      let sub := altSubRun recur node parent ms ctx ref
      altStep maxOneMatch acc subSchema sub.1 sub.2)
    ([], none)

/-- The loop body of `altsFold` as a named function of the accumulated state
and one alternative (definitionally the lambda of `altsFold`). -/
def altRun (recur : Recur) (node : JNode) (parent : Option ParentInfo)
    (ms : ISchemaCollector) (ctx : EvaluationContext) (maxOneMatch : Bool)
    (acc : List JSONSchema × Option BestMatch) (ref : JSONSchemaRef) :
    List JSONSchema × Option BestMatch :=
  altStep maxOneMatch acc (ValidationUtil.asSchema ref)
    (altSubRun recur node parent ms ctx ref).1
    (altSubRun recur node parent ms ctx ref).2

/-- `testAlternatives` (lines 164‑231).  Returns the updated state and
`matches.length`.  The `matchesWithGroupVersionKind` filter (lines 217‑219,
the `nhahn` edit) is computed but never used, exactly as in the source. -/
def testAlternatives (recur : Recur) (node : JNode) (parent : Option ParentInfo)
    (alternatives : List JSONSchemaRef) (maxOneMatch : Bool) (st : ValState)
    (ctx : EvaluationContext) : ValState × ℕ :=
  let folded := altsFold recur node parent st.2 ctx maxOneMatch alternatives
  let matchList := folded.1
  let res := if 1 < matchList.length ∧ maxOneMatch then
      let _matchesWithGroupVersionKind := matchList.filter fun v => v.gvk.isSome
      st.1.pushProblem ⟨⟨node.offset, 1⟩, none, none, Msg.matchesMultiple⟩
    else st.1
  match folded.2 with
  | some best =>
    ((res.merge best.validationResult, st.2.merge best.matchingSchemas), matchList.length)
  | none => ((res, st.2), matchList.length)

/-- `testBranch` (lines 239‑253): full merge of a fresh sub-evaluation. -/
def testBranch (recur : Recur) (node : JNode) (parent : Option ParentInfo)
    (schema : JSONSchema) (st : ValState) (ctx : EvaluationContext) : ValState :=
  let sub := recur (some (.node node)) parent schema
    ValidationResult.empty st.2.newSub ctx
  (st.1.merge sub.1, st.2.merge sub.2)

/-- `testCondition` (lines 255‑271): the `if` sub-evaluation's diagnostics
are dropped (processed properties and collector entries are kept); `then`
or `else` is evaluated against the parent state.  (`then`/`else` arrive
through `asSchema`, hence as schema objects.) -/
def testCondition (recur : Recur) (node : JNode) (parent : Option ParentInfo)
    (ifSchema : JSONSchema) (thenSchema elseSchema : Option JSONSchema)
    (st : ValState) (ctx : EvaluationContext) : ValState :=
  let sub := recur (some (.node node)) parent ifSchema
    ValidationResult.empty st.2.newSub ctx
  let ms := st.2.merge sub.2
  let res := st.1.mergeProcessedProperties sub.1
  if ¬ sub.1.hasProblems then
    match thenSchema with
    | some t => testBranch recur node parent t (res, ms) ctx
    | none => (res, ms)
  else
    match elseSchema with
    | some e => testBranch recur node parent e (res, ms) ctx
    | none => (res, ms)

/-- The `enum` section (lines 278‑301). -/
def vEnum (node : JNode) (schema : JSONSchema) (res : ValidationResult) :
    ValidationResult :=
  match schema.enumVals with
  | some enumList =>
    let val := getNodeValue node
    let enumValueMatch := enumList.any (equals val)
    let res := { res with enumValues := some enumList, enumValueMatch := enumValueMatch }
    if ¬ enumValueMatch then
      res.pushProblem ⟨node.range, none, some .enumValueMismatch,
        schema.errorMessage.getD (Msg.enumMismatch enumList)⟩
    else res
  | none => res

/-- The `const` section (lines 303‑316). -/
def vConst (node : JNode) (schema : JSONSchema) (res : ValidationResult) :
    ValidationResult :=
  match schema.constVal with
  | some c =>
    let val := getNodeValue node
    let res := if ¬ equals val c then
        { res.pushProblem ⟨node.range, none, some .enumValueMismatch,
            schema.errorMessage.getD (Msg.constMismatch c)⟩ with
          enumValueMatch := false }
      else { res with enumValueMatch := true }
    { res with enumValues := some [c] }
  | none => res

/-- The deprecation section (lines 318‑327).  An empty `deprecationMessage`
is JavaScript-falsy. -/
def vDeprecated (parent : Option ParentInfo) (schema : JSONSchema)
    (res : ValidationResult) : ValidationResult :=
  let dm := match schema.deprecationMessage with
    | some m => if m = "" then none else some m
    | none => none
  match parent with
  | some par =>
    if dm.isSome ∨ schema.deprecated then
      res.pushProblem ⟨⟨par.offset, par.length⟩, some .warning, some .deprecated,
        dm.getD Msg.deprecatedDefault⟩
    else res
  | none => res

/-- `_validateNode` (lines 110‑328), in source order: type check, `allOf`,
`not`, `anyOf`, `oneOf`, `if`/`then`/`else`, `enum`, `const`, deprecation. -/
def vNode (recur : Recur) (node : JNode) (parent : Option ParentInfo)
    (schema : JSONSchema) (res : ValidationResult) (ms : ISchemaCollector)
    (ctx : EvaluationContext) : ValState :=
  let res := vTypeCheck node schema res
  let st := match schema.allOf with
    | some refs => vAllOf recur node parent refs (res, ms) ctx
    | none => (res, ms)
  let st := match schema.notS with
    | some notRef => vNot recur node parent notRef st ctx
    | none => st
  let st := match schema.anyOf with
    | some alts => (testAlternatives recur node parent alts false st ctx).1
    | none => st
  let st := match schema.oneOf with
    | some alts => (testAlternatives recur node parent alts true st ctx).1
    | none => st
  let st := match schema.ifS with
    | some ifRef => testCondition recur node parent (ValidationUtil.asSchema ifRef)
        (schema.thenS.map ValidationUtil.asSchema)
        (schema.elseS.map ValidationUtil.asSchema) st ctx
    | none => st
  let res := vEnum node schema st.1
  let res := vConst node schema res
  let res := vDeprecated parent schema res
  (res, st.2)

/-- `getExclusiveLimit` (lines 366‑377). -/
def getExclusiveLimit (limit : Option JSNum) (exclusive : Option (Sum Bool JSNum)) :
    Option JSNum :=
  match exclusive with
  | some (.inr n) => some n
  | some (.inl b) => if b then limit else none
  | none => none

/-- `getLimit` (lines 378‑383). -/
def getLimit (limit : Option JSNum) (exclusive : Option (Sum Bool JSNum)) : Option JSNum :=
  match exclusive with
  | some (.inl b) => if b then none else limit
  | _ => limit

/-- `_validateNumberNode` (lines 330‑412).  The `multipleOf` remainder is
`val % multipleOf` when the divisor is an integer; otherwise both operands
are decimal-normalised (`normalizeFloats`), the one with fewer fractional
digits is rescaled by `10 ^ |Δ|`, and the remainder of the scaled values is
taken.  `remainder` starts at `-1` and a remainder other than `0` (including
the `NaN` of a zero divisor, embedded as `none`) produces a diagnostic. -/
def vNumberNode (node : JNode) (val : JSNum) (schema : JSONSchema)
    (res : ValidationResult) : ValidationResult :=
  let res := match schema.multipleOf with
    | some m =>
      let remainder : Option JSNum :=
        if m.isInt then jsRem val m
        else
          match normalizeFloats m, normalizeFloats val with
          | some (mv, mm), some (vv, vm) =>
            let multiplier : JSNum := ⟨(10 : ℤ) ^ ((vm : ℤ) - (mm : ℤ)).natAbs, 1⟩
            if (vm : ℤ) < (mm : ℤ) then
              jsRem ((JSNum.ofInt vv).mul multiplier) (JSNum.ofInt mv)
            else jsRem (JSNum.ofInt vv) ((JSNum.ofInt mv).mul multiplier)
          | _, _ => some (JSNum.ofInt (-1))
      if remainder.elim true (fun r => ¬ r.isZero) then
        res.pushProblem ⟨node.range, none, none, Msg.notDivisible m⟩
      else res
    | none => res
  let res := match getExclusiveLimit schema.minimum schema.exclusiveMinimum with
    | some em => if val.lev em then
        res.pushProblem ⟨node.range, none, none, Msg.belowExclusiveMinimum em⟩
      else res
    | none => res
  let res := match getExclusiveLimit schema.maximum schema.exclusiveMaximum with
    | some em => if em.lev val then
        res.pushProblem ⟨node.range, none, none, Msg.aboveExclusiveMaximum em⟩
      else res
    | none => res
  let res := match getLimit schema.minimum schema.exclusiveMinimum with
    | some m => if val.ltv m then
        res.pushProblem ⟨node.range, none, none, Msg.belowMinimum m⟩
      else res
    | none => res
  match getLimit schema.maximum schema.exclusiveMaximum with
  | some m => if m.ltv val then
      res.pushProblem ⟨node.range, none, none, Msg.aboveMaximum m⟩
    else res
  | none => res

/-- Modelled from the spec: `stringLength` counts code points (§4.4,
"measured in code points") — the implementation lives in
`src/server/src/utils/strings.ts`, which is not under `src/`.  Lean's
`String.length` counts characters, i.e. code points. -/
def stringLength (s : String) : ℕ := s.length

/-- `_validateStringNode` (lines 414‑491), restricted to the length
keywords; `pattern` and `format` rest on the JavaScript regular-expression
engine and are outside the embedding (the embedded schema type has no such
fields). -/
def vStringNode (node : JNode) (value : String) (schema : JSONSchema)
    (res : ValidationResult) : ValidationResult :=
  let res := match schema.minLength with
    | some m => if (JSNum.ofNat (stringLength value)).ltv m then
        res.pushProblem ⟨node.range, none, none, Msg.shorterThanMinLength m⟩
      else res
    | none => res
  match schema.maxLength with
  | some m => if m.ltv (JSNum.ofNat (stringLength value)) then
      res.pushProblem ⟨node.range, none, none, Msg.longerThanMaxLength m⟩
    else res
  | none => res

/-- `String(index)`: array indices as processed-property keys. -/
def idxKey (i : ℕ) : String := toString i

/-- `lastIndexOf` over the converted item values, under JavaScript `===`:
for a primitive the last value-equal index; for an object or array — a
fresh reference equal only to itself — the probe value is never found among
*other* positions, so the source's `index !== lastIndexOf(value)` test is
embedded through `jsDuplicates` below. -/
def jsLastIndexOf (values : List JValue) (x : JValue) : Option ℕ :=
  match values with
  | [] => none
  | v :: rest =>
    match jsLastIndexOf rest x with
    | some j => some (j + 1)
    | none => if jsStrictEq v x then some 0 else none

/-- The `uniqueItems` duplicate test (lines 634‑638):
`values.some((value, index) => index !== values.lastIndexOf(value))`.
For a composite value the JavaScript `lastIndexOf` finds exactly the value's
own position (reference identity), so `index !== lastIndexOf` is `false`;
this is embedded by letting the (reference-free) probe fail and mapping the
not-found case to `false`. -/
def jsDuplicates (values : List JValue) : Bool :=
  (List.range values.length).any fun i =>
    if (values.getD i .null).isPrimitive then
      match jsLastIndexOf values (values.getD i .null) with
      | some j => j != i
      | none => false
    else false

/-- One iteration of the positional-items loop (lines 502‑516). -/
def vArrPrefixStep (recur : Recur) (itemParent : Option ParentInfo)
    (ps : List JSONSchemaRef) (items : List JNode) (ctx : EvaluationContext)
    (st : ValState) (index : ℕ) : ValState :=
  let subSchema := ValidationUtil.asSchema (ps.getD index (.inl true))
  let item := items.getD index (.nullNode 0 0)
  let sub := recur (some (.node item)) itemParent subSchema
    ValidationResult.empty st.2 ctx
  ((st.1.mergePropertyMatch sub.1).addProcessed (idxKey index), sub.2)

/-- The positional-items (`prefixItems` / tuple `items`) section. -/
def vArrPrefixItemsSection (recur : Recur) (itemParent : Option ParentInfo)
    (items : List JNode) (ctx : EvaluationContext)
    (prefixItemsSchemas : Option (List JSONSchemaRef)) (st : ValState) : ValState :=
  match prefixItemsSchemas with
  | some ps =>
    (List.range (min ps.length items.length)).foldl
      (vArrPrefixStep recur itemParent ps items ctx) st
  | none => st

/-- One iteration of the remainder-items loop (schema case, lines 531‑543). -/
def vArrAddStep (recur : Recur) (itemParent : Option ParentInfo)
    (items : List JNode) (indexAfter : ℕ) (s : JSONSchema) (ctx : EvaluationContext)
    (st : ValState) (index : ℕ) : ValState :=
  if indexAfter ≤ index then
    let sub := recur (some (.node (items.getD index (.nullNode 0 0))))
      itemParent s ValidationResult.empty st.2 ctx
    ((st.1.mergePropertyMatch sub.1).addProcessed (idxKey index), sub.2)
  else st

/-- The remainder-items (`items` / `additionalItems`) section (lines
517‑546). -/
def vArrAdditionalSection (recur : Recur) (node : JNode)
    (itemParent : Option ParentInfo) (items : List JNode) (ctx : EvaluationContext)
    (additionalItemSchema : Option JSONSchemaRef) (indexAfter : ℕ)
    (st : ValState) : ValState :=
  match additionalItemSchema with
  | some ref =>
    if indexAfter < items.length then
      match ref with
      | .inl b =>
        let res := if b = false then
            st.1.pushProblem ⟨node.range, none, none,
              Msg.tooManyItemsExpected indexAfter⟩
          else st.1
        let res := (List.range items.length).foldl
          (fun res index =>
            if indexAfter ≤ index then
              { res.addProcessed (idxKey index) with
                propertiesValueMatches := res.propertiesValueMatches + 1 }
            else res)
          res
        (res, st.2)
      | .inr s =>
        (List.range items.length).foldl
          (vArrAddStep recur itemParent items indexAfter s ctx) st
    else st
  | none => st

/-- The `contains` section (lines 548‑592); sub-runs use the no-op
collector, and the parent collector passes through untouched. -/
def vArrContainsSection (recur : Recur) (node : JNode)
    (itemParent : Option ParentInfo) (items : List JNode) (schema : JSONSchema)
    (ctx : EvaluationContext) (st : ValState) : ValState :=
  match schema.containsS with
  | some containsRef =>
    let containsSchema := ValidationUtil.asSchema containsRef
    let counted := (List.range items.length).foldl
      (fun (acc : ℕ × ValidationResult) index =>
        let item := items.getD index (.nullNode 0 0)
        let sub := recur (some (.node item)) itemParent containsSchema
          ValidationResult.empty ISchemaCollector.noOp ctx
        if ¬ sub.1.hasProblems then
          (acc.1 + 1,
           if SchemaDraft.v2020_12 ≤ ctx.schemaDraft then
             acc.2.addProcessed (idxKey index)
           else acc.2)
        else acc)
      (0, st.1)
    let containsCount := counted.1
    let res := counted.2
    let res := if containsCount = 0 ∧ schema.minContains.isNone then
        res.pushProblem ⟨node.range, none, none,
          schema.errorMessage.getD Msg.missingRequiredItem⟩
      else res
    let res := match schema.minContains with
      | some m => if (JSNum.ofNat containsCount).ltv m then
          res.pushProblem ⟨node.range, none, none, Msg.tooFewContains m⟩
        else res
      | none => res
    let res := match schema.maxContains with
      | some m => if m.ltv (JSNum.ofNat containsCount) then
          res.pushProblem ⟨node.range, none, none, Msg.tooManyContains m⟩
        else res
      | none => res
    (res, st.2)
  | none => st

/-- One iteration of the `unevaluatedItems` loop (lines 594‑618). -/
def vArrUnevalStep (recur : Recur) (node : JNode) (itemParent : Option ParentInfo)
    (items : List JNode) (ref : JSONSchemaRef) (ctx : EvaluationContext)
    (st : ValState) (i : ℕ) : ValState :=
  let st := if ¬ st.1.processedProperties.contains (idxKey i) then
      match ref with
      | .inl false =>
        (st.1.pushProblem ⟨node.range, none, none, Msg.unevaluatedItem⟩, st.2)
      | _ =>
        let sub := recur (some (.node (items.getD i (.nullNode 0 0))))
          itemParent (ValidationUtil.asSchema ref)
          ValidationResult.empty st.2 ctx
        (st.1.mergePropertyMatch sub.1, sub.2)
    else st
  ({ st.1.addProcessed (idxKey i) with
     propertiesValueMatches := st.1.propertiesValueMatches + 1 }, st.2)

/-- The `unevaluatedItems` section; a `true` schema is validated as the
empty schema it behaves as. -/
def vArrUnevalItemsSection (recur : Recur) (node : JNode)
    (itemParent : Option ParentInfo) (items : List JNode) (schema : JSONSchema)
    (ctx : EvaluationContext) (st : ValState) : ValState :=
  match schema.unevaluatedItems with
  | some ref =>
    (List.range items.length).foldl
      (vArrUnevalStep recur node itemParent items ref ctx) st
  | none => st

/-- `_validateArrayNode` (lines 492‑646). -/
def vArrayNode (recur : Recur) (node : JNode) (items : List JNode)
    (schema : JSONSchema) (res : ValidationResult) (ms : ISchemaCollector)
    (ctx : EvaluationContext) : ValState :=
  -- draft-sensitive selection of positional and remainder schemas
  -- (lines 493‑501)
  let prefixItemsSchemas : Option (List JSONSchemaRef) :=
    if SchemaDraft.v2020_12 ≤ ctx.schemaDraft then schema.prefixItems
    else match schema.items with | some (.inr l) => some l | _ => none
  let additionalItemSchema : Option JSONSchemaRef :=
    if SchemaDraft.v2020_12 ≤ ctx.schemaDraft then
      match schema.items with | some (.inl r) => some r | _ => none
    else
      match schema.items with
      | some (.inl r) => some r
      | some (.inr _) => schema.additionalItems
      | none => schema.additionalItems
  let itemParent : Option ParentInfo := some (.other node.offset node.length)
  -- positional items (lines 502‑516)
  let indexAfter := match prefixItemsSchemas with
    | some ps => min ps.length items.length
    | none => 0
  let st := vArrPrefixItemsSection recur itemParent items ctx prefixItemsSchemas
    (res, ms)
  -- remainder items (lines 517‑546)
  let st := vArrAdditionalSection recur node itemParent items ctx
    additionalItemSchema indexAfter st
  -- contains (lines 548‑592)
  let st := vArrContainsSection recur node itemParent items schema ctx st
  -- unevaluatedItems (lines 594‑618)
  let st := vArrUnevalItemsSection recur node itemParent items schema ctx st
  -- minItems / maxItems (lines 620‑632)
  let res := match schema.minItems with
    | some m => if (JSNum.ofNat items.length).ltv m then
        st.1.pushProblem ⟨node.range, none, none, Msg.tooFewItems m⟩
      else st.1
    | none => st.1
  let res := match schema.maxItems with
    | some m => if m.ltv (JSNum.ofNat items.length) then
        res.pushProblem ⟨node.range, none, none, Msg.tooManyItems m⟩
      else res
    | none => res
  -- uniqueItems (lines 634‑645)
  let res := if schema.uniqueItems then
      if jsDuplicates (getNodeValueList items) then
        res.pushProblem ⟨node.range, none, none, Msg.duplicateItems⟩
      else res
    else res
  (res, st.2)

/-- JavaScript hashed assignment `map[k] = v` on an ordered association
list: overwrite in place, else append (key order is first-insertion
order). -/
def jsAssignProp (fields : List (String × JProperty)) (k : String) (p : JProperty) :
    List (String × JProperty) :=
  match fields with
  | [] => [(k, p)]
  | (k', w) :: rest =>
    if k' = k then (k', p) :: rest else (k', w) :: jsAssignProp rest k p

/-- `seenKeys` (lines 649‑655), but mapping each key to its (last) property
node: `seenKeys[key]` of the source is `(seenProps.lookup key).bind
valueNode`, and the `child.parent` property node the source reads for error
anchoring is the looked-up property itself. -/
def seenProps (properties : List JProperty) : List (String × JProperty) :=
  properties.foldl (fun acc p => jsAssignProp acc p.keyValue p) []

/-- `seenKeys[k]` with JavaScript truthiness: the value node of the last
property named `k`, when present. -/
def seenKey (sp : List (String × JProperty)) (k : String) : Option JNode :=
  (sp.lookup k).bind JProperty.valueNode

/-- The insertion-ordered `unprocessedProperties` set (lines 650‑655). -/
def unprocessedInit (properties : List JProperty) : List String :=
  properties.foldl (fun s p => ValidationResult.setAdd s p.keyValue) []

/-- `propertyProcessed` (lines 672‑675), acting on the
`(unprocessed, result)` pair. -/
def propertyProcessed (unprocessed : List String) (res : ValidationResult)
    (prop : String) : List String × ValidationResult :=
  (unprocessed.erase prop, res.addProcessed prop)

/-- `_validatePropertyDependencies` (lines 885‑915). -/
def vPropertyDependencies (recur : Recur) (node : JNode)
    (parent : Option ParentInfo) (sp : List (String × JProperty)) (key : String)
    (propertyDep : Sum (List String) JSONSchemaRef) (st : ValState)
    (ctx : EvaluationContext) : ValState :=
  match propertyDep with
  | .inl requiredProps =>
    let res := requiredProps.foldl
      (fun (res : ValidationResult) requiredProp =>
        if (seenKey sp requiredProp).isNone then
          res.pushProblem ⟨node.range, none, none,
            Msg.missingDependentProperty requiredProp key⟩
        else
          { res with propertiesValueMatches := res.propertiesValueMatches + 1 })
      st.1
    (res, st.2)
  | .inr ref =>
    let propertySchema := ValidationUtil.asSchema ref
    let sub := recur (some (.node node)) parent propertySchema
      ValidationResult.empty st.2 ctx
    (st.1.mergePropertyMatch sub.1, sub.2)

/-- One iteration of the `properties` loop (lines 677‑710). -/
def vObjPropsStep (recur : Recur) (sp : List (String × JProperty))
    (schema : JSONSchema) (ctx : EvaluationContext)
    (st : List String × ValidationResult × ISchemaCollector)
    (entry : String × JSONSchemaRef) :
    List String × ValidationResult × ISchemaCollector :=
  let propertyName := entry.1
  let (unprocessed, res) := propertyProcessed st.1 st.2.1 propertyName
  match sp.lookup propertyName with
  | some prop =>
    match prop.valueNode with
    | some child =>
      match entry.2 with
      | .inl b =>
        if ¬ b then
          (unprocessed,
           res.pushProblem ⟨⟨prop.keyOffset, prop.keyLength⟩, none, none,
             schema.errorMessage.getD (Msg.propertyNotAllowed propertyName)⟩,
           st.2.2)
        else
          (unprocessed,
           { res with
             propertiesMatches := res.propertiesMatches + 1
             propertiesValueMatches := res.propertiesValueMatches + 1 },
           st.2.2)
      | .inr propertySchema =>
        let sub := recur (some (.node child)) (some prop.asParent)
          propertySchema ValidationResult.empty st.2.2 ctx
        (unprocessed, res.mergePropertyMatch sub.1, sub.2)
    | none => (unprocessed, res, st.2.2)
  | none => (unprocessed, res, st.2.2)

/-- The `properties` section. -/
def vObjPropsSection (recur : Recur) (sp : List (String × JProperty))
    (schema : JSONSchema) (ctx : EvaluationContext)
    (st3 : List String × ValidationResult × ISchemaCollector) :
    List String × ValidationResult × ISchemaCollector :=
  match schema.properties with
  | some propList => propList.foldl (vObjPropsStep recur sp schema ctx) st3
  | none => st3

/-- One iteration of the `additionalProperties` loop (lines 758‑784). -/
def vObjAddPropsStep (recur : Recur) (sp : List (String × JProperty))
    (schema : JSONSchema) (apRef : JSONSchemaRef) (ctx : EvaluationContext)
    (st : List String × ValidationResult × ISchemaCollector)
    (propertyName : String) :
    List String × ValidationResult × ISchemaCollector :=
  let (unprocessed, res) := propertyProcessed st.1 st.2.1 propertyName
  match sp.lookup propertyName with
  | some prop =>
    match prop.valueNode with
    | some child =>
      match apRef with
      | .inl false =>
        (unprocessed,
         res.pushProblem ⟨⟨prop.keyOffset, prop.keyLength⟩, none, none,
           schema.errorMessage.getD (Msg.propertyNotAllowed propertyName)⟩,
         st.2.2)
      | .inl true => (unprocessed, res, st.2.2)
      | .inr apSchema =>
        let sub := recur (some (.node child)) (some prop.asParent)
          apSchema ValidationResult.empty st.2.2 ctx
        (unprocessed, res.mergePropertyMatch sub.1, sub.2)
    | none => (unprocessed, res, st.2.2)
  | none => (unprocessed, res, st.2.2)

/-- The `additionalProperties` section; iterates the snapshot of the
unprocessed set, removing each visited name. -/
def vObjAddPropsSection (recur : Recur) (sp : List (String × JProperty))
    (schema : JSONSchema) (ctx : EvaluationContext)
    (st3 : List String × ValidationResult × ISchemaCollector) :
    List String × ValidationResult × ISchemaCollector :=
  match schema.additionalProperties with
  | some apRef => st3.1.foldl (vObjAddPropsStep recur sp schema apRef ctx) st3
  | none => st3

/-- One iteration of the `unevaluatedProperties` loop (lines 785‑818). -/
def vObjUnevalStep (recur : Recur) (sp : List (String × JProperty))
    (schema : JSONSchema) (upRef : JSONSchemaRef) (ctx : EvaluationContext)
    (st : List String × ValidationResult × ISchemaCollector)
    (propertyName : String) :
    List String × ValidationResult × ISchemaCollector :=
  if ¬ st.2.1.processedProperties.contains propertyName then
    let processed := st.1 ++ [propertyName]
    match sp.lookup propertyName with
    | some prop =>
      match prop.valueNode with
      | some child =>
        match upRef with
        | .inl false =>
          (processed,
           st.2.1.pushProblem ⟨⟨prop.keyOffset, prop.keyLength⟩, none, none,
             schema.errorMessage.getD (Msg.propertyNotAllowed propertyName)⟩,
           st.2.2)
        | .inl true => (processed, st.2.1, st.2.2)
        | .inr upSchema =>
          let sub := recur (some (.node child)) (some prop.asParent)
            upSchema ValidationResult.empty st.2.2 ctx
          (processed, st.2.1.mergePropertyMatch sub.1, sub.2)
      | none => (processed, st.2.1, st.2.2)
    | none => (processed, st.2.1, st.2.2)
  else st

/-- The post-loop marking of visited unevaluated names. -/
def vObjMarkStep (st : List String × ValidationResult × ISchemaCollector)
    (name : String) : List String × ValidationResult × ISchemaCollector :=
  let (unprocessed, res) := propertyProcessed st.1 st.2.1 name
  (unprocessed, res, st.2.2)

/-- The `unevaluatedProperties` section; names already in
`processedProperties` are skipped, the visited rest is processed after the
loop. -/
def vObjUnevalPropsSection (recur : Recur) (sp : List (String × JProperty))
    (schema : JSONSchema) (ctx : EvaluationContext)
    (st3 : List String × ValidationResult × ISchemaCollector) :
    List String × ValidationResult × ISchemaCollector :=
  match schema.unevaluatedProperties with
  | some upRef =>
    let stepped := st3.1.foldl (vObjUnevalStep recur sp schema upRef ctx)
      ([], st3.2)
    stepped.1.foldl vObjMarkStep (st3.1, stepped.2)
  | none => st3

/-- One iteration of the `dependentRequired` loop (lines 841‑849). -/
def vObjDepReqStep (recur : Recur) (node : JNode) (parent : Option ParentInfo)
    (sp : List (String × JProperty)) (ctx : EvaluationContext) (st : ValState)
    (entry : String × List String) : ValState :=
  if (seenKey sp entry.1).isSome then
    vPropertyDependencies recur node parent sp entry.1 (.inl entry.2) st ctx
  else st

/-- One iteration of the `dependentSchemas` loop (lines 850‑858); `isObject`
rejects booleans. -/
def vObjDepSchStep (recur : Recur) (node : JNode) (parent : Option ParentInfo)
    (sp : List (String × JProperty)) (ctx : EvaluationContext) (st : ValState)
    (entry : String × JSONSchemaRef) : ValState :=
  match entry.2 with
  | .inr depSchema =>
    if (seenKey sp entry.1).isSome then
      vPropertyDependencies recur node parent sp entry.1 (.inr (.inr depSchema))
        st ctx
    else st
  | .inl _ => st

/-- One iteration of the `dependencies` loop (lines 860‑867). -/
def vObjDepsStep (recur : Recur) (node : JNode) (parent : Option ParentInfo)
    (sp : List (String × JProperty)) (ctx : EvaluationContext) (st : ValState)
    (entry : String × Sum (List String) JSONSchemaRef) : ValState :=
  if (seenKey sp entry.1).isSome then
    vPropertyDependencies recur node parent sp entry.1 entry.2 st ctx
  else st

/-- The `dependentRequired` section. -/
def vObjDepReqSection (recur : Recur) (node : JNode) (parent : Option ParentInfo)
    (sp : List (String × JProperty)) (schema : JSONSchema)
    (ctx : EvaluationContext) (st : ValState) : ValState :=
  match schema.dependentRequired with
  | some deps => deps.foldl (vObjDepReqStep recur node parent sp ctx) st
  | none => st

/-- The `dependentSchemas` section. -/
def vObjDepSchSection (recur : Recur) (node : JNode) (parent : Option ParentInfo)
    (sp : List (String × JProperty)) (schema : JSONSchema)
    (ctx : EvaluationContext) (st : ValState) : ValState :=
  match schema.dependentSchemas with
  | some deps => deps.foldl (vObjDepSchStep recur node parent sp ctx) st
  | none => st

/-- The `dependencies` section. -/
def vObjDepsSection (recur : Recur) (node : JNode) (parent : Option ParentInfo)
    (sp : List (String × JProperty)) (schema : JSONSchema)
    (ctx : EvaluationContext) (st : ValState) : ValState :=
  match schema.dependencies with
  | some deps => deps.foldl (vObjDepsStep recur node parent sp ctx) st
  | none => st

/-- The `propertyNames` section (lines 869‑883): each key node, into the
parent result, with the no-op collector. -/
def vObjPropNamesSection (recur : Recur) (properties : List JProperty)
    (schema : JSONSchema) (ctx : EvaluationContext) (st : ValState) : ValState :=
  match schema.propertyNames with
  | some pnRef =>
    let pn := ValidationUtil.asSchema pnRef
    let res := properties.foldl
      (fun (res : ValidationResult) f =>
        (recur (some (.node f.keyNode)) (some f.asParent) pn res
          ISchemaCollector.noOp ctx).1)
      st.1
    (res, st.2)
  | none => st

/-- `_validateObjectNode` (lines 648‑916), without the regular-expression
based `patternProperties` section (the embedded schema type has no such
field; the unprocessed-property flow of the remaining sections is
unchanged for schemas without it). -/
def vObjectNode (recur : Recur) (node : JNode) (properties : List JProperty)
    (parent : Option ParentInfo) (schema : JSONSchema) (res : ValidationResult)
    (ms : ISchemaCollector) (ctx : EvaluationContext) : ValState :=
  let sp := seenProps properties
  let unprocessed := unprocessedInit properties
  -- required (lines 657‑670)
  let res := match schema.required with
    | some names =>
      names.foldl
        (fun (res : ValidationResult) propertyName =>
          if (seenKey sp propertyName).isNone then
            let location : IRange := match parent with
              | some (.property ko kl _ _) => ⟨ko, kl⟩
              | _ => ⟨node.offset, 1⟩
            res.pushProblem ⟨location, none, none, Msg.missingProperty propertyName⟩
          else res)
        res
    | none => res
  -- properties (lines 677‑710)
  let st3 := vObjPropsSection recur sp schema ctx (unprocessed, res, ms)
  -- additionalProperties (lines 758‑784)
  let st3 := vObjAddPropsSection recur sp schema ctx st3
  -- unevaluatedProperties (lines 785‑818)
  let st3 := vObjUnevalPropsSection recur sp schema ctx st3
  let res := st3.2.1
  let msAfter := st3.2.2
  -- maxProperties / minProperties (lines 820‑839)
  let res := match schema.maxProperties with
    | some m => if m.ltv (JSNum.ofNat properties.length) then
        res.pushProblem ⟨node.range, none, none, Msg.tooManyProperties m⟩
      else res
    | none => res
  let res := match schema.minProperties with
    | some m => if (JSNum.ofNat properties.length).ltv m then
        res.pushProblem ⟨node.range, none, none, Msg.tooFewProperties m⟩
      else res
    | none => res
  -- dependentRequired (lines 841‑849)
  let st := vObjDepReqSection recur node parent sp schema ctx (res, msAfter)
  -- dependentSchemas (lines 850‑858)
  let st := vObjDepSchSection recur node parent sp schema ctx st
  -- dependencies (lines 860‑867)
  let st := vObjDepsSection recur node parent sp schema ctx st
  -- propertyNames (lines 869‑883)
  vObjPropNamesSection recur properties schema ctx st

/-- One unfolding of `SchemaValidator.validate` (lines 77‑108): the
include/property preamble, `_validateNode`, the per-type dispatch, and the
final `matchingSchemas.add({node, schema})`. -/
def validateStep (recur : Recur) : Recur := fun n? parent schema res ms ctx =>
  match n? with
  | none => (res, ms)
  | some n =>
    if ¬ ms.includeNode n then (res, ms)
    else
      match n with
      | .prop p =>
        recur (p.valueNode.map .node) (some p.asParent) schema res ms ctx
      | .node node =>
        let st := vNode recur node parent schema res ms ctx
        let st := match node with
          | .obj _ _ properties =>
            vObjectNode recur node properties parent schema st.1 st.2 ctx
          | .arr _ _ items => vArrayNode recur node items schema st.1 st.2 ctx
          | .str _ _ value => (vStringNode node value schema st.1, st.2)
          | .num _ _ value _ => (vNumberNode node value schema st.1, st.2)
          | _ => st
        (st.1, st.2.add { node := node, schema := schema })

/-- The fuel-indexed validator: `validateFuel (f+1)` is one source-level
`SchemaValidator.validate` whose nested calls run at fuel `f`.  At fuel `0`
the state is returned unchanged; the public entry points below supply fuel
exceeding any reachable nesting depth, and the universal theorems hold for
every fuel. -/
def validateFuel : ℕ → Recur
  | 0 => fun _ _ _ res ms _ => (res, ms)
  | f + 1 => validateStep (validateFuel f)

/-! Structural size functions used only to choose the fuel for the public
entry points (the derived `sizeOf` of a nested inductive has no executable
code). -/

mutual

/-- Size of a schema (counting through every sub-schema position). -/
def schFuel : JSONSchema → ℕ
  | .mk ⟨_, _, _, _, _, _, _, _, _, _, _, _, _, _, _, _, _, _, _, _, _, _, _, _,
      allOf, anyOf, oneOf, notS, ifS, thenS, elseS, items, pits, aits, cont,
      uits, props, aprops, uprops, depsch, deps, pnames⟩ =>
    1 + oRefsFuel allOf + oRefsFuel anyOf + oRefsFuel oneOf + oRefFuel notS +
      oRefFuel ifS + oRefFuel thenS + oRefFuel elseS + itemsFuel items +
      oRefsFuel pits + oRefFuel aits + oRefFuel cont + oRefFuel uits +
      oPairRefsFuel props + oRefFuel aprops + oRefFuel uprops +
      oPairRefsFuel depsch + oDepsFuel deps + oRefFuel pnames

/-- Size of a schema reference (the boolean shorthand expands to `{not:{}}`,
a two-level schema). -/
def refFuel : JSONSchemaRef → ℕ
  | .inl _ => 8
  | .inr s => 1 + schFuel s

def oRefFuel : Option JSONSchemaRef → ℕ
  | none => 0
  | some r => refFuel r

def refsFuel : List JSONSchemaRef → ℕ
  | [] => 0
  | r :: rs => refFuel r + refsFuel rs

def oRefsFuel : Option (List JSONSchemaRef) → ℕ
  | none => 0
  | some rs => refsFuel rs

def pairRefsFuel : List (String × JSONSchemaRef) → ℕ
  | [] => 0
  | (_, r) :: rs => refFuel r + pairRefsFuel rs

def oPairRefsFuel : Option (List (String × JSONSchemaRef)) → ℕ
  | none => 0
  | some rs => pairRefsFuel rs

def itemsFuel : Option (Sum JSONSchemaRef (List JSONSchemaRef)) → ℕ
  | none => 0
  | some (.inl r) => refFuel r
  | some (.inr rs) => refsFuel rs

def depsFuel : List (String × Sum (List String) JSONSchemaRef) → ℕ
  | [] => 0
  | (_, .inl _) :: rs => depsFuel rs
  | (_, .inr r) :: rs => refFuel r + depsFuel rs

def oDepsFuel : Option (List (String × Sum (List String) JSONSchemaRef)) → ℕ
  | none => 0
  | some rs => depsFuel rs

end

mutual

/-- Size of a non-property node. -/
def nodeFuel : JNode → ℕ
  | .obj _ _ ps => 1 + jpropsFuel ps
  | .arr _ _ xs => 1 + jnodesFuel xs
  | _ => 1

/-- Size of a property (its key node included). -/
def jpropFuel : JProperty → ℕ
  | .mk _ _ _ _ _ (some v) => 2 + nodeFuel v
  | .mk _ _ _ _ _ none => 2

def jpropsFuel : List JProperty → ℕ
  | [] => 0
  | p :: ps => jpropFuel p + jpropsFuel ps

def jnodesFuel : List JNode → ℕ
  | [] => 0
  | n :: ns => nodeFuel n + jnodesFuel ns

end

/-- Size of any node. -/
def astnFuel : ASTN → ℕ
  | .node n => 1 + nodeFuel n
  | .prop p => 1 + jpropFuel p

/-- Fuel sufficient for any run on `(n, s)`: nested calls either descend
into a structurally smaller schema (a boolean shorthand expands to the
constant-depth `{not: {}}`) or move from a property to its value node or an
object's or array's child, so the nesting depth is far below this bound. -/
def fuelBound (n : Option ASTN) (s : JSONSchema) : ℕ :=
  (match n with | none => 1 | some a => astnFuel a) + schFuel s + 64

/-- `SchemaValidator.validate` (lines 77‑108): the fuel-tied entry point. -/
def SchemaValidator.validate (n : Option ASTN) (parent : Option ParentInfo)
    (schema : JSONSchema) (res : ValidationResult) (ms : ISchemaCollector)
    (ctx : EvaluationContext) : ValState :=
  validateFuel (fuelBound n schema) n parent schema res ms ctx

/-- `JSONDocument.getMatchingSchemas` (jsonDocument.ts, lines 71‑80): run
the validator over the root with a fresh result and a focused recording
collector, and return the collected entries.  The root node carries no
parent. -/
def JSONDocument.getMatchingSchemas (root : Option ASTN) (schema : JSONSchema)
    (focusOffset : ℤ := -1) (exclude : Option ASTN := none) :
    List IApplicableSchema :=
  match root with
  | some r =>
    (SchemaValidator.validate (some r) none schema ValidationResult.empty
      (.collector focusOffset exclude [])
      ⟨ValidationUtil.getSchemaDraft schema⟩).2.schemas
  | none => []

/-- `JSONDocument.validate` (jsonDocument.ts, lines 45‑69), up to the
offset→position mapping the caller performs: the problem list of a
validator run with the no-op collector, or `undefined` without a root or
schema. -/
def JSONDocument.validateRoot (root : Option ASTN) (schema : Option JSONSchema)
    (schemaDraft : Option ℕ := none) : Option (List IProblem) :=
  match root, schema with
  | some r, some s =>
    some (SchemaValidator.validate (some r) none s ValidationResult.empty
      ISchemaCollector.noOp
      ⟨schemaDraft.getD (ValidationUtil.getSchemaDraft s)⟩).1.problems
  | _, _ => none

/-! ## AST converter fragments (`astConverter.ts`)

Only the pieces the claims concern: `convertRange` and
`getRangeForFlowCollection`. -/

/-- A `yaml` CST range `[start, value-end, node-end]`. -/
abbrev YRange := ℤ × ℤ × ℤ

/-- `convertRange` (astConverter.ts, lines 93‑102): a value anchored under a
property starts right after its key's colon. -/
def convertRange (range : YRange) (parent : Option ParentInfo) : IRange :=
  let offset := match parent with
    | some (.property ko kl _ _) => ko + kl + 1
    | _ => range.1
  ⟨offset, range.2.1 - offset⟩

/-- An item of a flow collection as `getRangeForFlowCollection` reads it: a
pair whose key/value each either are not `Node`s (`none`), are `Node`s
without a `range` (`some none`), or carry a range — or a non-pair item. -/
inductive FlowItem where
  | pair (key value : Option (Option YRange))
  | nonPair

/-- `getRangeForFlowCollection` (astConverter.ts, lines 202‑220), verbatim:
`start` begins at `Number.MAX_SAFE_INTEGER`, `end` at `0`; a key range below
`start` lowers `start`; a value's node-end is compared against `start`
(`item.value.range[2] < start`) before it is stored into `end`. -/
def getRangeForFlowCollection (items : List FlowItem) (parent : Option ParentInfo) :
    IRange :=
  let st := items.foldl
    (fun (st : ℤ × ℤ) item =>
      match item with
      | .pair key value =>
        let st := match key with
          | some (some r) => if r.1 < st.1 then (r.1, st.2) else st
          | _ => st
        match value with
        | some (some r) => if r.2.2 < st.1 then (st.1, r.2.2) else st
        | _ => st
      | .nonPair => st)
    (9007199254740991, 0)
  convertRange (st.1, st.2, st.2) parent

/-- The ranges the flow items carry (each pair's key and value range, when
present). -/
def flowRanges (items : List FlowItem) : List YRange :=
  items.flatMap fun
    | .pair key value => key.join.toList ++ value.join.toList
    | .nonPair => []

/-- The extent the spec describes for a flow collection (§4.2: "the extent
is computed as the min/max of all child key/value ranges"): offset is the
minimum range start, offset+length is the maximum node-end. -/
def flowExtentSpec (items : List FlowItem) (parent : Option ParentInfo) :
    Option IRange :=
  match (flowRanges items).map (·.1), (flowRanges items).map (·.2.2) with
  | starts, ends =>
    match starts.min?, ends.max? with
    | some lo, some hi =>
      let offset := match parent with
        | some (.property ko kl _ _) => ko + kl + 1
        | _ => lo
      some ⟨offset, hi - offset⟩
    | _, _ => none

/-! ## Multi-document parsing (`src/unnamed/part_000`, `yamlDocument.ts`)

The token stream composer is the external `yaml` package (`Parser` /
`Composer`), which is not under `src/`; it is modelled from the spec
(§4.1: "document boundaries are detected via explicit stream-separator
markers", §3: each sub-document owns "a contiguous, non-overlapping
`[startOffset, endOffset]` window in source-absolute coordinates").  The
window assignment over the composed ranges (lines 87‑98 of part_000) is
embedded from the source. -/

/-- A stream-separator marker: `---` at the start of a line. -/
def isSepAt (text : List Char) (p : ℕ) : Bool :=
  (p == 0 || text.getD (p - 1) ' ' == '\n') &&
    text.getD p ' ' == '-' && text.getD (p + 1) ' ' == '-' &&
    text.getD (p + 2) ' ' == '-'

/-- All stream-separator positions, in order. -/
def sepPositions (text : List Char) : List ℕ :=
  (List.range text.length).filter (isSepAt text)

/-- Modelled from the spec: the composer splits the source at
stream-separator markers into per-document token groups; each group's range
`[range[0], ·, range[2]]` runs from its boundary to just before the next
boundary (end inclusive), so consecutive ranges are contiguous and
non-overlapping (§3). -/
def composeModel (text : List Char) : List (ℤ × ℤ) :=
  let len : ℤ := text.length
  let seps : List ℤ := (sepPositions text).map (fun n => (n : ℤ))
  let bs : List ℤ := if seps.head? = some 0 then seps else 0 :: seps
  (bs.zip (bs.drop 1 ++ [len])).map fun p => (p.1, p.2 - 1)

/-- A `YamlDocument`'s sub-document window (`yamlDocument.ts`, the `range`
member). -/
structure DocWindow where
  startOffset : ℤ
  endOffset : ℤ
deriving DecidableEq, Repr

/-- The window assignment of `YamlParser.parse` (part_000, lines 87‑98):
the first document's window starts at offset 0
(`this.yamlDocuments.length == 0 ? 0 : composedToken.range[0]`), later
windows at their composed range's start; every window ends at its composed
range's end. -/
def YamlParser.parse (text : List Char) : List DocWindow :=
  match composeModel text with
  | [] => []
  | r :: rest => ⟨0, r.2⟩ :: rest.map fun q => ⟨q.1, q.2⟩

/-- `YamlDocument.isOffsetInDocument` (yamlDocument.ts, lines 21‑23). -/
def YamlDocument.isOffsetInDocument (w : DocWindow) (offset : ℤ) : Bool :=
  decide (w.startOffset ≤ offset ∧ offset ≤ w.endOffset)

/-! ## Combinator-free schemas (for the focused-collector guarantee)

Schemas that use no combinator keyword (`allOf` / `not` / `anyOf` / `oneOf`
/ `if`) anywhere, and whose sub-schema references are schema objects or the
boolean `true` (the `false` shorthand expands to the combinator `{not:{}}`). -/

mutual

/-- Hereditarily combinator-free schema objects. -/
inductive CombFree : JSONSchema → Prop where
  | intro (s : JSONSchema)
      (hAllOf : s.allOf = none) (hNot : s.notS = none)
      (hAnyOf : s.anyOf = none) (hOneOf : s.oneOf = none) (hIf : s.ifS = none)
      (hThen : ∀ r, s.thenS = some r → CombFreeRef r)
      (hElse : ∀ r, s.elseS = some r → CombFreeRef r)
      (hItems1 : ∀ r, s.items = some (.inl r) → CombFreeRef r)
      (hItems2 : ∀ rs r, s.items = some (.inr rs) → r ∈ rs → CombFreeRef r)
      (hPrefixItems : ∀ rs r, s.prefixItems = some rs → r ∈ rs → CombFreeRef r)
      (hAddItems : ∀ r, s.additionalItems = some r → CombFreeRef r)
      (hContains : ∀ r, s.containsS = some r → CombFreeRef r)
      (hUItems : ∀ r, s.unevaluatedItems = some r → CombFreeRef r)
      (hProps : ∀ ps k r, s.properties = some ps → (k, r) ∈ ps → CombFreeRef r)
      (hAddProps : ∀ r, s.additionalProperties = some r → CombFreeRef r)
      (hUProps : ∀ r, s.unevaluatedProperties = some r → CombFreeRef r)
      (hDepSch : ∀ ps k r, s.dependentSchemas = some ps → (k, r) ∈ ps → CombFreeRef r)
      (hDeps : ∀ ps k r, s.dependencies = some ps → (k, .inr r) ∈ ps → CombFreeRef r)
      (hPropNames : ∀ r, s.propertyNames = some r → CombFreeRef r) :
      CombFree s

/-- Combinator-free schema references. -/
inductive CombFreeRef : JSONSchemaRef → Prop where
  | tt : CombFreeRef (.inl true)
  | schema (s : JSONSchema) : CombFree s → CombFreeRef (.inr s)

end

/-! ## Concrete instances used by counterexamples and witnesses -/

namespace Ex

/-- Two distinct diagnostics. -/
def pA : IProblem := ⟨⟨0, 1⟩, none, none, "a"⟩
def pB : IProblem := ⟨⟨2, 1⟩, none, none, "b"⟩

/-- Accumulators with diagnostics and `primaryValueMatches`. -/
def r1 : ValidationResult := { problems := [pA], primaryValueMatches := 1 }
def r2 : ValidationResult := { problems := [pB], primaryValueMatches := 2 }

/-- `a: x` / `b: y` — an object `{a: "x", b: "y"}` spanning `[0, 12)`: key
`a` at 1, value at 3; key `b` at 6, value at 8. -/
def valA : JNode := .str 3 1 "x"
def valB : JNode := .str 8 1 "y"
def propA : JProperty := .mk 1 3 1 1 "a" (some valA)
def propB : JProperty := .mk 6 3 6 1 "b" (some valB)
def objAB : JNode := .obj 0 12 [propA, propB]

/-- `{properties: {a: {}, b: {}}}`. -/
def innerSchema : JSONSchema :=
  .mk { properties := some [("a", .inr (.mk {})), ("b", .inr (.mk {}))] }

/-- `{allOf: [{properties: {a: {}, b: {}}}]}`. -/
def allOfSchema : JSONSchema := .mk { allOf := some [.inr innerSchema] }

/-- `{a: 1}` spanning `[0, 6)`: key at 1, value at 4. -/
def val1 : JNode := .num 4 1 (.ofInt 1) true
def prop1 : JProperty := .mk 1 4 1 1 "a" (some val1)
def objA : JNode := .obj 0 6 [prop1]

/-- The empty schema. -/
def alt1 : JSONSchema := .mk {}

/-- `{properties: {a: {}}}`. -/
def alt2 : JSONSchema := .mk { properties := some [("a", .inr (.mk {}))] }

/-- `{anyOf: [{}, {properties: {a: {}}}]}`. -/
def anyOfSchema : JSONSchema := .mk { anyOf := some [.inr alt1, .inr alt2] }

/-- An array of two structurally equal — but positionally distinct —
objects `[{a: 1}, {a: 1}]`. -/
def dupItem1 : JNode := .obj 1 6 [.mk 2 4 2 1 "a" (some (.num 5 1 (.ofInt 1) true))]
def dupItem2 : JNode := .obj 9 6 [.mk 10 4 10 1 "a" (some (.num 13 1 (.ofInt 1) true))]
def dupArray : JNode := .arr 0 16 [dupItem1, dupItem2]

/-- `{uniqueItems: true}`. -/
def uniqueSchema : JSONSchema := .mk { uniqueItems := true }

/-- One flow pair: key range `[1,2,2]`, value range `[4,5,5]`. -/
def flowItems : List FlowItem := [.pair (some (some (1, 2, 2))) (some (some (4, 5, 5)))]

/-- A two-document source: `"a: 1\n---\nb: 2\n"` (separator at offset 5). -/
def twoDocText : List Char := ("a: 1\n---\nb: 2\n").toList

end Ex

/-! ## Notions used by the theorem statements -/

/-- The number of alternatives whose sub-run (fresh accumulator, fresh
unfocused sub-collector) reports zero problems — the `matches.length` of
`testAlternatives`. -/
def cleanMatchCount (recur : Recur) (node : JNode) (parent : Option ParentInfo)
    (ms : ISchemaCollector) (ctx : EvaluationContext)
    (alternatives : List JSONSchemaRef) : ℕ :=
  (alternatives.filter fun r =>
    !(altSubRun recur node parent ms ctx r).1.hasProblems).length

/-- `r'` is `r` with its top-level `x-kubernetes-group-version-kind` field
replaced (boolean shorthands unchanged). -/
def GVKVariant (r r' : JSONSchemaRef) : Prop := ∃ g, r' = setGVKRef g r

/-- Two problems agree on everything but the message text (location,
severity, code).  `mergeEnumValues` may rewrite the message of an
enum-mismatch problem of the selected best match, so the best match's
diagnostics agree with one alternative's sub-run diagnostics up to this
relation. -/
def problemsShape (p q : IProblem) : Prop :=
  p.location = q.location ∧ p.severity = q.severity ∧ p.code = q.code

/-- A collector is the focused collector over `base` extended only by
entries whose node span contains the focus offset `N`. -/
def FocusedExt (N : ℤ) (ex : Option ASTN) (base : List IApplicableSchema)
    (c : ISchemaCollector) : Prop :=
  ∃ extra, c = .collector N ex (base ++ extra) ∧
    ∀ e ∈ extra, containsOffset (.node e.node) N = true

/-- The recursive validator preserves the focused-collector property on
combinator-free schemas. -/
def RecurFocused (recur : Recur) : Prop :=
  ∀ n p s res N ex entries ctx, CombFree s → 0 ≤ N →
    FocusedExt N ex entries
      (recur n p s res (.collector N ex entries) ctx).2

/-- A collector evolution that only appends focus-containing entries: every
focused-extension invariant satisfied by `c` transfers to `c'`. -/
def CollGood (c c' : ISchemaCollector) : Prop :=
  ∀ N ex base, 0 ≤ N → FocusedExt N ex base c → FocusedExt N ex base c'

/-! # Theorems -/

/-! ## `ValidationResult.merge` (claim C5) -/

theorem mem_setAdd {s : List String} {x y : String} :
    y ∈ ValidationResult.setAdd s x ↔ y ∈ s ∨ y = x := by
  by_cases h : x ∈ s
  · simp only [ValidationResult.setAdd, if_pos h]
    exact ⟨.inl, fun hy => hy.elim id (fun he => he ▸ h)⟩
  · simp [ValidationResult.setAdd, if_neg h]

theorem mem_foldl_setAdd {l s : List String} {x : String} :
    x ∈ l.foldl ValidationResult.setAdd s ↔ x ∈ s ∨ x ∈ l := by
  induction l generalizing s with
  | nil => simp
  | cons y l ih =>
    simp only [List.foldl_cons, ih, mem_setAdd, List.mem_cons]
    tauto

theorem foldl_setAdd_setAdd (a b : List String) (x : String) :
    List.foldl ValidationResult.setAdd a (ValidationResult.setAdd b x) =
      ValidationResult.setAdd (List.foldl ValidationResult.setAdd a b) x := by
  by_cases hx : x ∈ b
  · rw [show ValidationResult.setAdd b x = b from by simp [ValidationResult.setAdd, hx]]
    have hx' : x ∈ List.foldl ValidationResult.setAdd a b :=
      mem_foldl_setAdd.2 (.inr hx)
    simp [ValidationResult.setAdd, hx']
  · rw [show ValidationResult.setAdd b x = b ++ [x] from by
      simp [ValidationResult.setAdd, hx]]
    rw [List.foldl_append]
    rfl

theorem foldl_setAdd_assoc (c b a : List String) :
    List.foldl ValidationResult.setAdd (List.foldl ValidationResult.setAdd a b) c =
      List.foldl ValidationResult.setAdd a (List.foldl ValidationResult.setAdd b c) := by
  induction c generalizing b with
  | nil => rfl
  | cons x c ih =>
    simp only [List.foldl_cons]
    rw [← foldl_setAdd_setAdd a b x, ih]

/-- Claim C5 — counterexample: `ValidationResult.merge` does not sum
`primaryValueMatches` (it keeps the receiver's value), and it is not
commutative (the concatenated diagnostic lists differ in order), refuting
the claim at the concrete accumulators `Ex.r1`, `Ex.r2`. -/
theorem c5_counterexample :
    (ValidationResult.merge Ex.r1 Ex.r2).primaryValueMatches ≠
        Ex.r1.primaryValueMatches + Ex.r2.primaryValueMatches ∧
      ValidationResult.merge Ex.r1 Ex.r2 ≠ ValidationResult.merge Ex.r2 Ex.r1 := by
  refine ⟨by decide, fun h => ?_⟩
  have hp := congrArg ValidationResult.problems h
  exact absurd hp (by decide)

/-- Claim C5 (amended): merging two `ValidationResult`s concatenates their
diagnostic lists and sums `propertiesMatches` and `propertiesValueMatches`
and unions processed properties, while `primaryValueMatches`,
`enumValueMatch` and `enumValues` keep the receiver's values; the merge is
associative, and commutative on the summed counters and on
processed-property membership, while the diagnostic lists commute only up
to permutation. -/
theorem c5_amended (a b c : ValidationResult) :
    (ValidationResult.merge a b).problems = a.problems ++ b.problems ∧
    (ValidationResult.merge a b).propertiesMatches =
      a.propertiesMatches + b.propertiesMatches ∧
    (ValidationResult.merge a b).propertiesValueMatches =
      a.propertiesValueMatches + b.propertiesValueMatches ∧
    (ValidationResult.merge a b).primaryValueMatches = a.primaryValueMatches ∧
    (ValidationResult.merge a b).enumValueMatch = a.enumValueMatch ∧
    (ValidationResult.merge a b).enumValues = a.enumValues ∧
    (∀ x, x ∈ (ValidationResult.merge a b).processedProperties ↔
      x ∈ a.processedProperties ∨ x ∈ b.processedProperties) ∧
    ValidationResult.merge (ValidationResult.merge a b) c =
      ValidationResult.merge a (ValidationResult.merge b c) ∧
    (ValidationResult.merge a b).problems.Perm
      (ValidationResult.merge b a).problems ∧
    (ValidationResult.merge a b).propertiesMatches =
      (ValidationResult.merge b a).propertiesMatches ∧
    (ValidationResult.merge a b).propertiesValueMatches =
      (ValidationResult.merge b a).propertiesValueMatches ∧
    (∀ x, x ∈ (ValidationResult.merge a b).processedProperties ↔
      x ∈ (ValidationResult.merge b a).processedProperties) := by
  refine ⟨rfl, rfl, rfl, rfl, rfl, rfl, fun x => mem_foldl_setAdd, ?_, ?_, ?_, ?_, ?_⟩
  · simp only [ValidationResult.merge, ValidationResult.mergeProcessedProperties]
    congr 1 <;> try omega
    · exact List.append_assoc _ _ _
    · exact foldl_setAdd_assoc _ _ _
  · exact List.perm_append_comm
  · simp only [ValidationResult.merge, ValidationResult.mergeProcessedProperties]
    omega
  · simp only [ValidationResult.merge, ValidationResult.mergeProcessedProperties]
    omega
  · intro x
    simp only [ValidationResult.merge, ValidationResult.mergeProcessedProperties]
    constructor <;> intro h <;>
      [exact mem_foldl_setAdd.2 (mem_foldl_setAdd.1 h).symm;
       exact mem_foldl_setAdd.2 (mem_foldl_setAdd.1 h).symm]

/-! ## Multi-document windows (claim C6) -/

/-- Claim C6: a source holding exactly two `---`-separated documents (one
separator, at a positive offset) parses to exactly two `DocWindow`s in
source order; the first starts at offset 0, the second at the separator;
the windows are disjoint and ordered, and together they cover every offset
of the source. -/
theorem c6_two_document_windows (text : List Char) (p : ℕ)
    (hsep : sepPositions text = [p]) (hp : 0 < p) :
    YamlParser.parse text =
      [⟨0, (p : ℤ) - 1⟩, ⟨(p : ℤ), (text.length : ℤ) - 1⟩] ∧
    (YamlParser.parse text).length = 2 ∧
    (∀ o : ℤ, ¬ (YamlDocument.isOffsetInDocument ⟨0, (p : ℤ) - 1⟩ o = true ∧
      YamlDocument.isOffsetInDocument ⟨(p : ℤ), (text.length : ℤ) - 1⟩ o = true)) ∧
    ((0 : ℤ) : ℤ) = 0 ∧ ((p : ℤ) - 1) < (p : ℤ) ∧
    (∀ o : ℤ, 0 ≤ o → o < (text.length : ℤ) →
      YamlDocument.isOffsetInDocument ⟨0, (p : ℤ) - 1⟩ o = true ∨
      YamlDocument.isOffsetInDocument ⟨(p : ℤ), (text.length : ℤ) - 1⟩ o = true) := by
  have hne : ((p : ℤ)) ≠ 0 := by exact_mod_cast hp.ne'
  have hcomp : composeModel text =
      [(0, (p : ℤ) - 1), ((p : ℤ), (text.length : ℤ) - 1)] := by
    simp [composeModel, hsep, hne]
  have hparse : YamlParser.parse text =
      [⟨0, (p : ℤ) - 1⟩, ⟨(p : ℤ), (text.length : ℤ) - 1⟩] := by
    simp [YamlParser.parse, hcomp]
  refine ⟨hparse, by rw [hparse]; rfl, ?_, rfl, by omega, ?_⟩
  · intro o ⟨h1, h2⟩
    simp only [YamlDocument.isOffsetInDocument, decide_eq_true_eq] at h1 h2
    omega
  · intro o h0 hlen
    simp only [YamlDocument.isOffsetInDocument, decide_eq_true_eq]
    omega

/-- Claim C6 — witness: the theorem applied to the concrete source
`"a: 1\n---\nb: 2\n"`, whose single separator sits at offset 5. -/
theorem c6_two_document_windows_witness :
    YamlParser.parse Ex.twoDocText = [⟨0, 4⟩, ⟨5, 13⟩] := by
  have h := c6_two_document_windows Ex.twoDocText 5 (by decide) (by decide)
  exact h.1

/-! ## `multipleOf` with decimal operands (claim C7) -/

/-- Claim C7: a number node with value `0.3` validated against
`{multipleOf: 0.1}` produces no diagnostic — `multipleOf` is not an
integer, so both operands are rescaled through their decimal-digit counts
(`normalizeFloats`; `0.3 ↦ (3,1)`, `0.1 ↦ (1,1)`) and the remainder
`3 % 1 = 0` is taken over the rescaled integers. -/
theorem c7_multipleOf_decimal :
    JSONDocument.validateRoot (some (.node (.num 0 3 ⟨3, 10⟩ true)))
        (some (JSONSchema.mk { multipleOf := some ⟨1, 10⟩ })) = some [] ∧
      normalizeFloats ⟨3, 10⟩ = some (3, 1) ∧
      normalizeFloats ⟨1, 10⟩ = some (1, 1) := by
  refine ⟨by decide, by decide, by decide⟩

/-! ## Flow-collection extent (claim C8) -/

/-- Claim C8: at a flow mapping with a single pair whose key range is
`[1,2]` and whose value range ends at 5, `getRangeForFlowCollection`
returns offset 1 with length `-1` — the value's node-end is compared
against the running `start` (`item.value.range[2] < start`) instead of the
running `end`, so `end` keeps its initial `0` — while the extent the spec
describes (min start to max end over the child ranges) is `[1, 5)`, i.e.
offset 1, length 4. -/
theorem c8_flow_extent_bug :
    getRangeForFlowCollection Ex.flowItems none = ⟨1, -1⟩ ∧
      flowExtentSpec Ex.flowItems none = some ⟨1, 4⟩ ∧
      ((⟨1, -1⟩ : IRange) ≠ ⟨1, 4⟩) := by
  exact ⟨rfl, rfl, by decide⟩

/-! ## `uniqueItems` (claim C9) -/

theorem jsStrictEq_isPrimitive {v w : JValue} (h : jsStrictEq v w = true) :
    v.isPrimitive = true ∧ w.isPrimitive = true := by
  cases v <;> cases w <;> simp_all [jsStrictEq, JValue.isPrimitive]

theorem jsStrictEq_symm {v w : JValue} (h : jsStrictEq v w = true) :
    jsStrictEq w v = true := by
  cases v <;> cases w <;> simp_all [jsStrictEq, JSNum.beqv]

theorem jsStrictEq_refl_prim {v : JValue} (h : v.isPrimitive = true) :
    jsStrictEq v v = true := by
  cases v <;> simp_all [jsStrictEq, JValue.isPrimitive, JSNum.beqv]

theorem jsLastIndexOf_some_spec {values : List JValue} {x : JValue} {j : ℕ}
    (h : jsLastIndexOf values x = some j) :
    j < values.length ∧ jsStrictEq (values.getD j .null) x = true := by
  induction values generalizing j with
  | nil => simp [jsLastIndexOf] at h
  | cons v rest ih =>
    rw [jsLastIndexOf] at h
    cases hr : jsLastIndexOf rest x with
    | some j' =>
      rw [hr] at h
      injection h with h
      subst h
      have := ih hr
      simpa [List.getD_cons_succ] using this
    | none =>
      rw [hr] at h
      by_cases hv : jsStrictEq v x = true
      · rw [if_pos hv] at h
        injection h with h
        subst h
        simpa [List.getD_cons_zero] using hv
      · rw [if_neg hv] at h
        cases h

theorem jsLastIndexOf_none {values : List JValue} {x : JValue}
    (h : jsLastIndexOf values x = none) :
    ∀ k, k < values.length → jsStrictEq (values.getD k .null) x = false := by
  induction values with
  | nil => intro k hk; cases hk
  | cons v rest ih =>
    rw [jsLastIndexOf] at h
    cases hr : jsLastIndexOf rest x with
    | some j' => rw [hr] at h; cases h
    | none =>
      rw [hr] at h
      intro k hk
      match k with
      | 0 =>
        rw [List.getD_cons_zero]
        by_cases hv : jsStrictEq v x = true
        · rw [if_pos hv] at h; cases h
        · simpa using hv
      | k' + 1 =>
        rw [List.getD_cons_succ]
        exact ih hr k' (by simpa using hk)

theorem jsLastIndexOf_maximal {values : List JValue} {x : JValue} {j : ℕ}
    (h : jsLastIndexOf values x = some j) :
    ∀ k, k < values.length → jsStrictEq (values.getD k .null) x = true → k ≤ j := by
  induction values generalizing j with
  | nil => intro k hk; cases hk
  | cons v rest ih =>
    rw [jsLastIndexOf] at h
    cases hr : jsLastIndexOf rest x with
    | some j' =>
      rw [hr] at h
      injection h with h
      subst h
      intro k hk hs
      match k with
      | 0 => omega
      | k' + 1 =>
        have := ih hr k' (by simpa using hk) (by simpa [List.getD_cons_succ] using hs)
        omega
    | none =>
      rw [hr] at h
      intro k hk hs
      match k with
      | 0 => omega
      | k' + 1 =>
        have hnone := jsLastIndexOf_none hr k' (by simpa using hk)
        rw [List.getD_cons_succ] at hs
        rw [hnone] at hs
        cases hs

theorem jsLastIndexOf_found {values : List JValue} {x : JValue} {i : ℕ}
    (hi : i < values.length) (hs : jsStrictEq (values.getD i .null) x = true) :
    ∃ j, jsLastIndexOf values x = some j ∧ i ≤ j := by
  induction values generalizing i with
  | nil => cases hi
  | cons v rest ih =>
    match i with
    | 0 =>
      rw [List.getD_cons_zero] at hs
      cases hr : jsLastIndexOf rest x with
      | some j' => exact ⟨j' + 1, by rw [jsLastIndexOf, hr], by omega⟩
      | none => exact ⟨0, by rw [jsLastIndexOf, hr, if_pos hs], le_refl 0⟩
    | i' + 1 =>
      rw [List.getD_cons_succ] at hs
      obtain ⟨j', hj', hij⟩ := ih (by simpa using hi) hs
      exact ⟨j' + 1, by rw [jsLastIndexOf, hj'], by omega⟩

/-- The duplicate test fires exactly when two distinct positions hold
JavaScript-strictly-equal values. -/
theorem jsDuplicates_iff (values : List JValue) :
    jsDuplicates values = true ↔
      ∃ i j, i < j ∧ j < values.length ∧
        jsStrictEq (values.getD i .null) (values.getD j .null) = true := by
  constructor
  · intro h
    simp only [jsDuplicates, List.any_eq_true, List.mem_range] at h
    obtain ⟨i, hi, hcond⟩ := h
    by_cases hprim : (values.getD i .null).isPrimitive = true
    · rw [if_pos hprim] at hcond
      cases hj : jsLastIndexOf values (values.getD i .null) with
      | none => rw [hj] at hcond; cases hcond
      | some j =>
        rw [hj] at hcond
        have hspec := jsLastIndexOf_some_spec hj
        have hrefl := jsStrictEq_refl_prim hprim
        have hle := jsLastIndexOf_maximal hj i hi hrefl
        have hne : j ≠ i := by simpa using hcond
        exact ⟨i, j, by omega, hspec.1, jsStrictEq_symm hspec.2⟩
    · rw [if_neg hprim] at hcond
      cases hcond
  · rintro ⟨i, j, hij, hj, hs⟩
    simp only [jsDuplicates, List.any_eq_true, List.mem_range]
    refine ⟨i, by omega, ?_⟩
    have hprim := (jsStrictEq_isPrimitive hs).1
    rw [if_pos hprim]
    obtain ⟨j', hj', hjj'⟩ :=
      jsLastIndexOf_found (x := values.getD i .null) hj (jsStrictEq_symm hs)
    rw [hj']
    simp only [ne_eq, bne_iff_ne]
    omega

/-- Claim C9 — counterexample: an array of two structurally equal objects
(`Ex.dupArray = [{a:1},{a:1}]`) validated against `{uniqueItems: true}`
produces no diagnostic, although the two items are deeply equal
(`equals` holds), refuting "deep equality on the JSON values, including
object- and array-valued items". -/
theorem c9_counterexample :
    JSONDocument.validateRoot (some (.node Ex.dupArray)) (some Ex.uniqueSchema) =
        some [] ∧
      equals (getNodeValue Ex.dupItem1) (getNodeValue Ex.dupItem2) = true ∧
      jsDuplicates (getNodeValueList [Ex.dupItem1, Ex.dupItem2]) = false := by
  refine ⟨by decide, by decide, by decide⟩

/-- Claim C9 (amended): for an array node validated against
`{uniqueItems: true}`, the "Array has duplicate items." diagnostic is
produced if and only if two distinct indices hold JavaScript-strictly-equal
converted values; strict equality only relates primitive values (equal
null/boolean/number/string), so structurally equal object- or array-valued
items are not detected (the source compares via `values.lastIndexOf`, i.e.
`===`, and the converted composite values are fresh references). -/
theorem c9_amended (f : ℕ) (o l : ℤ) (items : List JNode)
    (parent : Option ParentInfo) (res : ValidationResult)
    (ms : ISchemaCollector) (ctx : EvaluationContext)
    (hinc : ms.includeNode (.node (.arr o l items)) = true) :
    validateFuel (f + 1) (some (.node (.arr o l items))) parent
        (JSONSchema.mk { uniqueItems := true }) res ms ctx =
      ((if jsDuplicates (getNodeValueList items) then
          res.pushProblem ⟨⟨o, l⟩, none, none, Msg.duplicateItems⟩
        else res),
       ms.add ⟨.arr o l items, JSONSchema.mk { uniqueItems := true }, false⟩) ∧
    (jsDuplicates (getNodeValueList items) = true ↔
      ∃ i j, i < j ∧ j < (getNodeValueList items).length ∧
        jsStrictEq ((getNodeValueList items).getD i .null)
          ((getNodeValueList items).getD j .null) = true) ∧
    (∀ v w, jsStrictEq v w = true →
      v.isPrimitive = true ∧ w.isPrimitive = true) := by
  refine ⟨?_, jsDuplicates_iff _, fun v w h => jsStrictEq_isPrimitive h⟩
  cases parent <;>
    simp [validateFuel, validateStep, hinc, vNode, vTypeCheck, vEnum, vConst,
      vDeprecated, vArrayNode, vArrPrefixItemsSection, vArrAdditionalSection,
      vArrContainsSection, vArrUnevalItemsSection, JSONSchema.type, JSONSchema.allOf,
      JSONSchema.notS, JSONSchema.anyOf, JSONSchema.oneOf, JSONSchema.ifS,
      JSONSchema.enumVals, JSONSchema.constVal, JSONSchema.deprecationMessage,
      JSONSchema.deprecated, JSONSchema.prefixItems, JSONSchema.items,
      JSONSchema.additionalItems, JSONSchema.containsS,
      JSONSchema.unevaluatedItems, JSONSchema.minItems, JSONSchema.maxItems,
      JSONSchema.uniqueItems, JSONSchema.data, JNode.range, JNode.offset,
      JNode.length]

/-- Claim C9 — witness for the amended theorem at the concrete duplicate
array, a plain collector, and fuel 5. -/
theorem c9_amended_witness :
    (ISchemaCollector.collector (-1) none []).includeNode
        (.node (.arr 0 16 [Ex.dupItem1, Ex.dupItem2])) = true ∧
      validateFuel 6 (some (.node (.arr 0 16 [Ex.dupItem1, Ex.dupItem2]))) none
          (JSONSchema.mk { uniqueItems := true }) ValidationResult.empty
          (ISchemaCollector.collector (-1) none []) ⟨5⟩ =
        ((if jsDuplicates (getNodeValueList [Ex.dupItem1, Ex.dupItem2]) then
            ValidationResult.empty.pushProblem ⟨⟨0, 16⟩, none, none, Msg.duplicateItems⟩
          else ValidationResult.empty),
         (ISchemaCollector.collector (-1) none []).add
           ⟨.arr 0 16 [Ex.dupItem1, Ex.dupItem2],
            JSONSchema.mk { uniqueItems := true }, false⟩) :=
  ⟨by decide,
   (c9_amended 5 0 16 [Ex.dupItem1, Ex.dupItem2] none ValidationResult.empty
     (ISchemaCollector.collector (-1) none []) ⟨5⟩ (by decide)).1⟩

/-! ## Property delegation (claim C10) -/

theorem validateFuel_none (f : ℕ) (parent : Option ParentInfo)
    (schema : JSONSchema) (res : ValidationResult) (ms : ISchemaCollector)
    (ctx : EvaluationContext) :
    validateFuel f none parent schema res ms ctx = (res, ms) := by
  cases f <;> rfl

/-- Claim C10: `SchemaValidator.validate` on a property node (that the
collector includes) is exactly the validation of the property's value node
— same schema, same accumulator, same collector — with the property as the
value's parent; in particular a key-only property contributes no
diagnostics and no index entries, and the key node is never validated
against the value schema. -/
theorem c10_property_delegation (f : ℕ) (p : JProperty)
    (parent : Option ParentInfo) (schema : JSONSchema)
    (res : ValidationResult) (ms : ISchemaCollector) (ctx : EvaluationContext)
    (hinc : ms.includeNode (.prop p) = true) :
    validateFuel (f + 1) (some (.prop p)) parent schema res ms ctx =
        validateFuel f (p.valueNode.map .node) (some p.asParent) schema res ms ctx ∧
      (p.valueNode = none →
        validateFuel (f + 1) (some (.prop p)) parent schema res ms ctx = (res, ms)) := by
  have hmain : validateFuel (f + 1) (some (.prop p)) parent schema res ms ctx =
      validateFuel f (p.valueNode.map .node) (some p.asParent) schema res ms ctx := by
    simp [validateFuel, validateStep, hinc]
  refine ⟨hmain, fun hv => ?_⟩
  rw [hmain, hv]
  exact validateFuel_none f _ schema res ms ctx

/-- Claim C10 — witness: the delegation applied to the concrete property
`Ex.propA` (value node present) under a plain recording collector. -/
theorem c10_property_delegation_witness :
    (ISchemaCollector.collector (-1) none []).includeNode (.prop Ex.propA) = true ∧
      validateFuel 6 (some (.prop Ex.propA)) none Ex.alt1 ValidationResult.empty
          (ISchemaCollector.collector (-1) none []) ⟨5⟩ =
        validateFuel 5 (Ex.propA.valueNode.map .node) (some Ex.propA.asParent)
          Ex.alt1 ValidationResult.empty
          (ISchemaCollector.collector (-1) none []) ⟨5⟩ :=
  ⟨by decide,
   (c10_property_delegation 5 Ex.propA none Ex.alt1 ValidationResult.empty
     (ISchemaCollector.collector (-1) none []) ⟨5⟩ (by decide)).1⟩

/-! ## The `not` combinator (claim C4) -/

/-- Claim C4: validating a node against `{not: S}` runs `S` on the same
node in a fresh sub-accumulator and a fresh unfocused sub-collector; the
"Matches a schema that is not allowed." diagnostic is appended exactly when
that sub-evaluation reports zero problems; and every index entry the
sub-evaluation collected is added to the parent collector with its
`inverted` flag negated (followed by the node's own `{node, schema}`
entry). -/
theorem c4_not_schema (f : ℕ) (node : JNode) (parent : Option ParentInfo)
    (notRef : JSONSchemaRef) (res : ValidationResult) (ms : ISchemaCollector)
    (ctx : EvaluationContext)
    (hinc : ms.includeNode (.node node) = true) :
    validateFuel (f + 1) (some (.node node)) parent
        (JSONSchema.mk { notS := some notRef }) res ms ctx =
      (let sub := validateFuel f (some (.node node)) parent
        (ValidationUtil.asSchema notRef) ValidationResult.empty ms.newSub ctx
       ((if sub.1.problems = [] then
           res.pushProblem ⟨node.range, none, none, Msg.matchesDisallowed⟩
         else res),
        (sub.2.schemas.foldl (fun m e => m.add { e with inverted := !e.inverted }) ms).add
          ⟨node, JSONSchema.mk { notS := some notRef }, false⟩)) := by
  have hproblems : ∀ r : ValidationResult,
      (¬ r.hasProblems) = (r.problems = []) := by
    intro r
    rw [ValidationResult.hasProblems]
    cases r.problems <;> simp
  cases node <;> cases parent <;>
    simp [validateFuel, validateStep, hinc, vNode, vTypeCheck, vEnum, vConst,
      vDeprecated, vNot, vArrayNode, vObjectNode, vStringNode, vNumberNode,
      vArrPrefixItemsSection, vArrAdditionalSection, vArrContainsSection,
      vArrUnevalItemsSection, vObjPropsSection, vObjAddPropsSection,
      vObjUnevalPropsSection, vObjDepReqSection, vObjDepSchSection,
      vObjDepsSection, vObjPropNamesSection,
      hproblems, JSONSchema.type, JSONSchema.allOf, JSONSchema.notS,
      JSONSchema.anyOf, JSONSchema.oneOf, JSONSchema.ifS, JSONSchema.enumVals,
      JSONSchema.constVal, JSONSchema.deprecationMessage, JSONSchema.deprecated,
      JSONSchema.prefixItems, JSONSchema.items, JSONSchema.additionalItems,
      JSONSchema.containsS, JSONSchema.unevaluatedItems, JSONSchema.minItems,
      JSONSchema.maxItems, JSONSchema.uniqueItems, JSONSchema.multipleOf,
      JSONSchema.minimum, JSONSchema.maximum, JSONSchema.exclusiveMinimum,
      JSONSchema.exclusiveMaximum, JSONSchema.minLength, JSONSchema.maxLength,
      JSONSchema.required, JSONSchema.properties, JSONSchema.additionalProperties,
      JSONSchema.unevaluatedProperties, JSONSchema.minProperties,
      JSONSchema.maxProperties, JSONSchema.dependentRequired,
      JSONSchema.dependentSchemas, JSONSchema.dependencies,
      JSONSchema.propertyNames, JSONSchema.data, getExclusiveLimit, getLimit]

/-- Claim C4 — witness: the theorem applied at a concrete string node,
`{not: {}}`, and a plain collector. -/
theorem c4_not_schema_witness :
    (ISchemaCollector.collector (-1) none []).includeNode (.node Ex.valA) = true ∧
      validateFuel 6 (some (.node Ex.valA)) none
          (JSONSchema.mk { notS := some (.inr Ex.alt1) }) ValidationResult.empty
          (ISchemaCollector.collector (-1) none []) ⟨5⟩ =
        (let sub := validateFuel 5 (some (.node Ex.valA)) none
          (ValidationUtil.asSchema (.inr Ex.alt1)) ValidationResult.empty
          (ISchemaCollector.collector (-1) none []).newSub ⟨5⟩
         ((if sub.1.problems = [] then
             ValidationResult.empty.pushProblem
               ⟨Ex.valA.range, none, none, Msg.matchesDisallowed⟩
           else ValidationResult.empty),
          (sub.2.schemas.foldl (fun m e => m.add { e with inverted := !e.inverted })
            (ISchemaCollector.collector (-1) none [])).add
            ⟨Ex.valA, JSONSchema.mk { notS := some (.inr Ex.alt1) }, false⟩)) :=
  ⟨by decide,
   c4_not_schema 5 Ex.valA none (.inr Ex.alt1) ValidationResult.empty
     (ISchemaCollector.collector (-1) none []) ⟨5⟩ (by decide)⟩

/-! ## `testAlternatives` (claim C2): the multi-match diagnostic -/

theorem merge_problems (r o : ValidationResult) :
    (r.merge o).problems = r.problems ++ o.problems := rfl

theorem altsFold_eq_foldl (recur : Recur) (node : JNode) (parent : Option ParentInfo)
    (ms : ISchemaCollector) (ctx : EvaluationContext) (maxOne : Bool)
    (alts : List JSONSchemaRef) :
    altsFold recur node parent ms ctx maxOne alts =
      alts.foldl (altRun recur node parent ms ctx maxOne) ([], none) := rfl

theorem altStep_fst (maxOne : Bool) (st : List JSONSchema × Option BestMatch)
    (sub : JSONSchema) (r : ValidationResult) (c : ISchemaCollector) :
    (altStep maxOne st sub r c).1 =
      if ¬ r.hasProblems then st.1 ++ [sub] else st.1 := by
  obtain ⟨ml, bo⟩ := st
  cases bo with
  | none => rfl
  | some b =>
    simp only [altStep]
    split_ifs <;> rfl

theorem altRun_fst (recur : Recur) (node : JNode) (parent : Option ParentInfo)
    (ms : ISchemaCollector) (ctx : EvaluationContext) (maxOne : Bool)
    (acc : List JSONSchema × Option BestMatch) (ref : JSONSchemaRef) :
    (altRun recur node parent ms ctx maxOne acc ref).1 =
      if ¬ (altSubRun recur node parent ms ctx ref).1.hasProblems then
        acc.1 ++ [ValidationUtil.asSchema ref]
      else acc.1 :=
  altStep_fst maxOne acc (ValidationUtil.asSchema ref) _ _

theorem foldl_altRun_fst (recur : Recur) (node : JNode) (parent : Option ParentInfo)
    (ms : ISchemaCollector) (ctx : EvaluationContext) (maxOne : Bool) :
    ∀ (l : List JSONSchemaRef) (acc : List JSONSchema × Option BestMatch),
      (l.foldl (altRun recur node parent ms ctx maxOne) acc).1 =
        acc.1 ++ (l.filter fun r =>
          !(altSubRun recur node parent ms ctx r).1.hasProblems).map
          ValidationUtil.asSchema := by
  intro l
  induction l with
  | nil => intro acc; simp
  | cons r rest ih =>
    intro acc
    rw [List.foldl_cons, ih, altRun_fst]
    simp only [List.filter_cons]
    by_cases hp : (altSubRun recur node parent ms ctx r).1.hasProblems = true
    · simp [hp]
    · simp [hp, List.append_assoc]

theorem altsFold_matchLength (recur : Recur) (node : JNode) (parent : Option ParentInfo)
    (ms : ISchemaCollector) (ctx : EvaluationContext) (maxOne : Bool)
    (alts : List JSONSchemaRef) :
    (altsFold recur node parent ms ctx maxOne alts).1.length =
      cleanMatchCount recur node parent ms ctx alts := by
  rw [altsFold_eq_foldl, foldl_altRun_fst]
  simp [cleanMatchCount]

theorem testAlternatives_problems (recur : Recur) (node : JNode)
    (parent : Option ParentInfo) (alts : List JSONSchemaRef) (maxOne : Bool)
    (res : ValidationResult) (ms : ISchemaCollector) (ctx : EvaluationContext) :
    (testAlternatives recur node parent alts maxOne (res, ms) ctx).1.1.problems =
      res.problems ++
        (if 1 < cleanMatchCount recur node parent ms ctx alts ∧ maxOne = true then
          [⟨⟨node.offset, 1⟩, none, none, Msg.matchesMultiple⟩] else []) ++
        ((altsFold recur node parent ms ctx maxOne alts).2.elim []
          fun b => b.validationResult.problems) := by
  have hlen := altsFold_matchLength recur node parent ms ctx maxOne alts
  rcases hfold : (altsFold recur node parent ms ctx maxOne alts).2 with _ | b
  · simp only [testAlternatives, hfold, hlen, Option.elim]
    by_cases hg : 1 < cleanMatchCount recur node parent ms ctx alts ∧ maxOne = true
    · simp [hg, ValidationResult.pushProblem]
    · simp [hg]
  · simp only [testAlternatives, hfold, hlen, Option.elim, merge_problems]
    by_cases hg : 1 < cleanMatchCount recur node parent ms ctx alts ∧ maxOne = true
    · simp [hg, ValidationResult.pushProblem, merge_problems]
    · simp [hg, merge_problems]

/-! The vendor-discriminator field `x-kubernetes-group-version-kind` is
inert: no keyword section reads it, so replacing it changes nothing in the
produced `ValidationResult`. -/

theorem vNode_setGVK (recur : Recur) (node : JNode) (parent : Option ParentInfo)
    (g : Option (List JValue)) (s : JSONSchema) (res : ValidationResult)
    (ms : ISchemaCollector) (ctx : EvaluationContext) :
    vNode recur node parent (setGVK g s) res ms ctx =
      vNode recur node parent s res ms ctx := by
  cases s with
  | mk d => rfl

theorem vObjectNode_setGVK (recur : Recur) (node : JNode)
    (properties : List JProperty) (parent : Option ParentInfo)
    (g : Option (List JValue)) (s : JSONSchema) (res : ValidationResult)
    (ms : ISchemaCollector) (ctx : EvaluationContext) :
    vObjectNode recur node properties parent (setGVK g s) res ms ctx =
      vObjectNode recur node properties parent s res ms ctx := by
  cases s with
  | mk d => rfl

theorem vArrayNode_setGVK (recur : Recur) (node : JNode) (items : List JNode)
    (g : Option (List JValue)) (s : JSONSchema) (res : ValidationResult)
    (ms : ISchemaCollector) (ctx : EvaluationContext) :
    vArrayNode recur node items (setGVK g s) res ms ctx =
      vArrayNode recur node items s res ms ctx := by
  cases s with
  | mk d => rfl

theorem vStringNode_setGVK (node : JNode) (value : String)
    (g : Option (List JValue)) (s : JSONSchema) (res : ValidationResult) :
    vStringNode node value (setGVK g s) res = vStringNode node value s res := by
  cases s with
  | mk d => rfl

theorem vNumberNode_setGVK (node : JNode) (val : JSNum)
    (g : Option (List JValue)) (s : JSONSchema) (res : ValidationResult) :
    vNumberNode node val (setGVK g s) res = vNumberNode node val s res := by
  cases s with
  | mk d => rfl

theorem validateFuel_setGVK_fst (f : ℕ) :
    ∀ (n : Option ASTN) (p : Option ParentInfo) (g : Option (List JValue))
      (s : JSONSchema) (res : ValidationResult) (ms : ISchemaCollector)
      (ctx : EvaluationContext),
      (validateFuel f n p (setGVK g s) res ms ctx).1 =
        (validateFuel f n p s res ms ctx).1 := by
  induction f with
  | zero => intro n p g s res ms ctx; rfl
  | succ f ih =>
    intro n p g s res ms ctx
    cases n with
    | none => rfl
    | some nn =>
      cases nn with
      | prop pp =>
        show (validateStep (validateFuel f) (some (.prop pp)) p (setGVK g s)
            res ms ctx).1 =
          (validateStep (validateFuel f) (some (.prop pp)) p s res ms ctx).1
        simp only [validateStep]
        split
        · rfl
        · exact ih _ _ g s res ms ctx
      | node nd =>
        show (validateStep (validateFuel f) (some (.node nd)) p (setGVK g s)
            res ms ctx).1 =
          (validateStep (validateFuel f) (some (.node nd)) p s res ms ctx).1
        simp only [validateStep]
        split
        · rfl
        · rw [vNode_setGVK]
          cases nd <;>
            simp [vObjectNode_setGVK, vArrayNode_setGVK, vStringNode_setGVK,
              vNumberNode_setGVK]

theorem altSubRun_gvk_fst (f : ℕ) (node : JNode) (parent : Option ParentInfo)
    (ms : ISchemaCollector) (ctx : EvaluationContext) {r r' : JSONSchemaRef}
    (h : GVKVariant r r') :
    (altSubRun (validateFuel f) node parent ms ctx r').1 =
      (altSubRun (validateFuel f) node parent ms ctx r).1 := by
  obtain ⟨g, rfl⟩ := h
  cases r with
  | inl b => rfl
  | inr s =>
    exact validateFuel_setGVK_fst f (some (.node node)) parent g s
      ValidationResult.empty ms.newSub ctx

theorem cleanMatchCount_gvk (f : ℕ) (node : JNode) (parent : Option ParentInfo)
    (ms : ISchemaCollector) (ctx : EvaluationContext)
    {alts alts' : List JSONSchemaRef} (hf : List.Forall₂ GVKVariant alts alts') :
    cleanMatchCount (validateFuel f) node parent ms ctx alts' =
      cleanMatchCount (validateFuel f) node parent ms ctx alts := by
  unfold cleanMatchCount
  induction hf with
  | nil => rfl
  | cons hr hrest ih =>
    simp only [List.filter_cons]
    rw [altSubRun_gvk_fst f node parent ms ctx hr]
    split
    · simp [ih]
    · exact ih

/-- **C2.**  For a node validated against `oneOf` alternatives
(`testAlternatives` with `maxOneMatch = true`, lines 164‑231): the output
diagnostics are the incoming diagnostics, followed by the "Matches multiple
schemas when only one must validate." diagnostic exactly when more than one
alternative's fresh sub-evaluation reports zero problems, followed by the
selected best match's diagnostics; and replacing the alternatives' top-level
`x-kubernetes-group-version-kind` fields leaves the number of problem-free
alternatives — hence whether that diagnostic is emitted — unchanged. -/
theorem c2_oneOf_multi_match (f : ℕ) (node : JNode) (parent : Option ParentInfo)
    (alts : List JSONSchemaRef) (res : ValidationResult) (ms : ISchemaCollector)
    (ctx : EvaluationContext) :
    ((testAlternatives (validateFuel f) node parent alts true (res, ms) ctx).1.1.problems =
      res.problems ++
        (if 1 < cleanMatchCount (validateFuel f) node parent ms ctx alts then
          [⟨⟨node.offset, 1⟩, none, none, Msg.matchesMultiple⟩] else []) ++
        ((altsFold (validateFuel f) node parent ms ctx true alts).2.elim []
          fun b => b.validationResult.problems)) ∧
    ∀ alts', List.Forall₂ GVKVariant alts alts' →
      cleanMatchCount (validateFuel f) node parent ms ctx alts' =
        cleanMatchCount (validateFuel f) node parent ms ctx alts := by
  constructor
  · have h := testAlternatives_problems (validateFuel f) node parent alts true res ms ctx
    simpa only [eq_self_iff_true, and_true] using h
  · intro alts' hf
    exact cleanMatchCount_gvk f node parent ms ctx hf

theorem c2_oneOf_multi_match_witness :
    cleanMatchCount (validateFuel 4) Ex.objA none (.collector (-1) none [])
        ⟨SchemaDraft.v2020_12⟩ [.inr (setGVK (some []) Ex.alt1), .inr Ex.alt2] =
      cleanMatchCount (validateFuel 4) Ex.objA none (.collector (-1) none [])
        ⟨SchemaDraft.v2020_12⟩ [.inr Ex.alt1, .inr Ex.alt2] :=
  (c2_oneOf_multi_match 4 Ex.objA none [.inr Ex.alt1, .inr Ex.alt2]
      ValidationResult.empty (.collector (-1) none []) ⟨SchemaDraft.v2020_12⟩).2
    [.inr (setGVK (some []) Ex.alt1), .inr Ex.alt2]
    (List.Forall₂.cons ⟨some [], rfl⟩
      (List.Forall₂.cons ⟨none, rfl⟩ List.Forall₂.nil))

/-! ## `testAlternatives` best-match selection (claim C3) -/

theorem compare_self (r : ValidationResult) : r.compare r = 0 := by
  simp [ValidationResult.compare]

theorem compare_antisymm (x y : ValidationResult) :
    y.compare x = -(x.compare y) := by
  unfold ValidationResult.compare
  cases hx : x.hasProblems <;> cases hy : y.hasProblems <;>
    cases ex : x.enumValueMatch <;> cases ey : y.enumValueMatch <;>
      simp <;> split_ifs <;> omega

set_option maxHeartbeats 1600000 in
theorem compare_le_trans {x y z : ValidationResult}
    (h1 : x.compare y ≤ 0) (h2 : y.compare z ≤ 0) :
    x.compare z ≤ 0 := by
  revert h1 h2
  unfold ValidationResult.compare
  cases hx : x.hasProblems <;> cases hy : y.hasProblems <;>
    cases hz : z.hasProblems <;> cases ex : x.enumValueMatch <;>
      cases ey : y.enumValueMatch <;> cases ez : z.enumValueMatch <;>
    simp <;> split_ifs <;> intros <;> omega

theorem mergeEnumValues_problems_isEmpty (a c : ValidationResult) :
    (a.mergeEnumValues c).problems.isEmpty = a.problems.isEmpty := by
  unfold ValidationResult.mergeEnumValues
  split
  · cases hp : a.problems <;> simp [hp]
  · rfl

theorem compare_mergeEnumValues_left (a c d : ValidationResult) :
    (a.mergeEnumValues c).compare d = a.compare d := by
  have hp : (a.mergeEnumValues c).hasProblems = a.hasProblems := by
    unfold ValidationResult.hasProblems
    rw [mergeEnumValues_problems_isEmpty]
  have he : (a.mergeEnumValues c).enumValueMatch = a.enumValueMatch := by
    unfold ValidationResult.mergeEnumValues; split <;> rfl
  have h3 : (a.mergeEnumValues c).primaryValueMatches = a.primaryValueMatches := by
    unfold ValidationResult.mergeEnumValues; split <;> rfl
  have h4 : (a.mergeEnumValues c).propertiesValueMatches = a.propertiesValueMatches := by
    unfold ValidationResult.mergeEnumValues; split <;> rfl
  have h5 : (a.mergeEnumValues c).propertiesMatches = a.propertiesMatches := by
    unfold ValidationResult.mergeEnumValues; split <;> rfl
  unfold ValidationResult.compare
  rw [hp, he, h3, h4, h5]

theorem forall₂_problemsShape_refl (xs : List IProblem) :
    List.Forall₂ problemsShape xs xs :=
  List.forall₂_same.2 fun _ _ => ⟨rfl, rfl, rfl⟩

theorem forall₂_problemsShape_trans :
    ∀ {xs ys zs : List IProblem}, List.Forall₂ problemsShape xs ys →
      List.Forall₂ problemsShape ys zs → List.Forall₂ problemsShape xs zs := by
  intro xs ys zs h1
  induction h1 generalizing zs with
  | nil => intro h2; cases h2; exact .nil
  | cons hxy _ ih =>
    intro h2
    cases h2 with
    | cons hyz h2' =>
      exact .cons ⟨hxy.1.trans hyz.1, hxy.2.1.trans hyz.2.1, hxy.2.2.trans hyz.2.2⟩
        (ih h2')

theorem mergeEnumValues_problems_shape (a c : ValidationResult) :
    List.Forall₂ problemsShape (a.mergeEnumValues c).problems a.problems := by
  unfold ValidationResult.mergeEnumValues
  split
  · refine List.forall₂_map_left_iff.2 (List.forall₂_same.2 fun p _ => ?_)
    split_ifs <;> exact ⟨rfl, rfl, rfl⟩
  · exact forall₂_problemsShape_refl _

theorem altStep_snd_isSome (maxOne : Bool) (st : List JSONSchema × Option BestMatch)
    (sub : JSONSchema) (r : ValidationResult) (c : ISchemaCollector) :
    (altStep maxOne st sub r c).2.isSome = true := by
  obtain ⟨ml, bo⟩ := st
  cases bo with
  | none => rfl
  | some b =>
    simp only [altStep]
    split_ifs <;> rfl

theorem foldl_altRun_snd_isSome (recur : Recur) (node : JNode)
    (parent : Option ParentInfo) (ms : ISchemaCollector) (ctx : EvaluationContext)
    (maxOne : Bool) :
    ∀ (l : List JSONSchemaRef) (acc : List JSONSchema × Option BestMatch),
      acc.2.isSome = true ∨ l ≠ [] →
      (l.foldl (altRun recur node parent ms ctx maxOne) acc).2.isSome = true := by
  intro l
  induction l with
  | nil =>
    intro acc h
    rcases h with h | h
    · exact h
    · exact absurd rfl h
  | cons r rest ih =>
    intro acc h
    rw [List.foldl_cons]
    refine ih _ (Or.inl ?_)
    show (altStep maxOne acc (ValidationUtil.asSchema r)
        (altSubRun recur node parent ms ctx r).1
        (altSubRun recur node parent ms ctx r).2).2.isSome = true
    exact altStep_snd_isSome maxOne acc (ValidationUtil.asSchema r) _ _

theorem altsFold_snd_isSome (recur : Recur) (node : JNode)
    (parent : Option ParentInfo) (ms : ISchemaCollector) (ctx : EvaluationContext)
    (maxOne : Bool) (alts : List JSONSchemaRef) (h : alts ≠ []) :
    (altsFold recur node parent ms ctx maxOne alts).2.isSome = true := by
  rw [altsFold_eq_foldl]
  exact foldl_altRun_snd_isSome recur node parent ms ctx maxOne alts ([], none)
    (Or.inr h)

theorem altStep_snd (maxOne : Bool) (st : List JSONSchema × Option BestMatch)
    (sub : JSONSchema) (r : ValidationResult) (c : ISchemaCollector) :
    (altStep maxOne st sub r c).2 =
      match st.2 with
      | none => some ⟨sub, r, c⟩
      | some best =>
        if ¬ maxOne ∧ ¬ r.hasProblems ∧ ¬ best.validationResult.hasProblems then
          some { best with
            matchingSchemas := best.matchingSchemas.merge c
            validationResult :=
              ({ best.validationResult with
                 propertiesMatches :=
                   best.validationResult.propertiesMatches + r.propertiesMatches
                 propertiesValueMatches :=
                   best.validationResult.propertiesValueMatches +
                     r.propertiesValueMatches
               }).mergeProcessedProperties r }
        else if 0 < r.compare best.validationResult then some ⟨sub, r, c⟩
        else if r.compare best.validationResult = 0 then
          some { best with
            matchingSchemas := best.matchingSchemas.merge c
            validationResult := best.validationResult.mergeEnumValues r }
        else some best := by
  obtain ⟨ml, bo⟩ := st
  cases bo with
  | none => rfl
  | some b =>
    simp only [altStep]
    split_ifs <;> rfl

theorem altStep_problems (maxOne : Bool) (st : List JSONSchema × Option BestMatch)
    (sub : JSONSchema) (r : ValidationResult) (c : ISchemaCollector) (b' : BestMatch)
    (h : (altStep maxOne st sub r c).2 = some b') :
    List.Forall₂ problemsShape b'.validationResult.problems r.problems ∨
    ∃ b, st.2 = some b ∧
      List.Forall₂ problemsShape b'.validationResult.problems
        b.validationResult.problems := by
  rw [altStep_snd] at h
  obtain ⟨ml, bo⟩ := st
  cases bo with
  | none =>
    have h' : some (BestMatch.mk sub r c) = some b' := h
    injection h' with h'
    subst h'
    exact .inl (forall₂_problemsShape_refl _)
  | some b =>
    have h' : (if ¬ maxOne ∧ ¬ r.hasProblems ∧ ¬ b.validationResult.hasProblems then
        some { b with
          matchingSchemas := b.matchingSchemas.merge c
          validationResult :=
            ({ b.validationResult with
               propertiesMatches :=
                 b.validationResult.propertiesMatches + r.propertiesMatches
               propertiesValueMatches :=
                 b.validationResult.propertiesValueMatches + r.propertiesValueMatches
             }).mergeProcessedProperties r }
      else if 0 < r.compare b.validationResult then some ⟨sub, r, c⟩
      else if r.compare b.validationResult = 0 then
        some { b with
          matchingSchemas := b.matchingSchemas.merge c
          validationResult := b.validationResult.mergeEnumValues r }
      else some b) = some b' := h
    split_ifs at h' with h1 h2 h3
    · injection h' with h'
      subst h'
      exact .inr ⟨b, rfl, forall₂_problemsShape_refl b.validationResult.problems⟩
    · injection h' with h'
      subst h'
      exact .inl (forall₂_problemsShape_refl r.problems)
    · injection h' with h'
      subst h'
      exact .inr ⟨b, rfl, mergeEnumValues_problems_shape b.validationResult r⟩
    · injection h' with h'
      subst h'
      exact .inr ⟨b, rfl, forall₂_problemsShape_refl b.validationResult.problems⟩

theorem foldl_altRun_tracker_src (recur : Recur) (node : JNode)
    (parent : Option ParentInfo) (ms : ISchemaCollector) (ctx : EvaluationContext)
    (maxOne : Bool) :
    ∀ (l : List JSONSchemaRef) (acc : List JSONSchema × Option BestMatch)
      (b' : BestMatch),
      (l.foldl (altRun recur node parent ms ctx maxOne) acc).2 = some b' →
      (∃ r ∈ l, List.Forall₂ problemsShape b'.validationResult.problems
          (altSubRun recur node parent ms ctx r).1.problems) ∨
      ∃ b, acc.2 = some b ∧ List.Forall₂ problemsShape
          b'.validationResult.problems b.validationResult.problems := by
  intro l
  induction l with
  | nil =>
    intro acc b' h
    rw [List.foldl_nil] at h
    exact .inr ⟨b', h, forall₂_problemsShape_refl _⟩
  | cons r rest ih =>
    intro acc b' h
    rw [List.foldl_cons] at h
    rcases ih (altRun recur node parent ms ctx maxOne acc r) b' h with
      ⟨r', hr', hshape⟩ | ⟨b, hb, hshape⟩
    · exact .inl ⟨r', List.mem_cons_of_mem _ hr', hshape⟩
    · have hb' : (altStep maxOne acc (ValidationUtil.asSchema r)
          (altSubRun recur node parent ms ctx r).1
          (altSubRun recur node parent ms ctx r).2).2 = some b := hb
      rcases altStep_problems maxOne acc (ValidationUtil.asSchema r)
          (altSubRun recur node parent ms ctx r).1
          (altSubRun recur node parent ms ctx r).2 b hb' with
        hsub | ⟨b0, hb0, hshape0⟩
      · exact .inl ⟨r, List.mem_cons_self _ _,
          forall₂_problemsShape_trans hshape hsub⟩
      · exact .inr ⟨b0, hb0, forall₂_problemsShape_trans hshape hshape0⟩

theorem altStep_snd_oneOf (st : List JSONSchema × Option BestMatch)
    (sub : JSONSchema) (r : ValidationResult) (c : ISchemaCollector) :
    (altStep true st sub r c).2 =
      match st.2 with
      | none => some ⟨sub, r, c⟩
      | some best =>
        if 0 < r.compare best.validationResult then some ⟨sub, r, c⟩
        else if r.compare best.validationResult = 0 then
          some { best with
            matchingSchemas := best.matchingSchemas.merge c
            validationResult := best.validationResult.mergeEnumValues r }
        else some best := by
  obtain ⟨ml, bo⟩ := st
  cases bo with
  | none => rfl
  | some b =>
    simp only [altStep]
    split_ifs <;> first | rfl | simp_all

theorem foldl_altRun_compare_max (recur : Recur) (node : JNode)
    (parent : Option ParentInfo) (ms : ISchemaCollector) (ctx : EvaluationContext) :
    ∀ (l : List JSONSchemaRef) (acc : List JSONSchema × Option BestMatch)
      (b' : BestMatch),
      (l.foldl (altRun recur node parent ms ctx true) acc).2 = some b' →
      (∀ r ∈ l, (altSubRun recur node parent ms ctx r).1.compare
          b'.validationResult ≤ 0) ∧
      ∀ b, acc.2 = some b → b.validationResult.compare b'.validationResult ≤ 0 := by
  intro l
  induction l with
  | nil =>
    intro acc b' h
    rw [List.foldl_nil] at h
    refine ⟨fun r hr => absurd hr (List.not_mem_nil r), fun b hb => ?_⟩
    rw [hb] at h
    injection h with h
    subst h
    exact le_of_eq (compare_self _)
  | cons r rest ih =>
    intro acc b' h
    rw [List.foldl_cons] at h
    obtain ⟨hrest, hacc1⟩ := ih (altRun recur node parent ms ctx true acc r) b' h
    obtain ⟨ml, bo⟩ := acc
    cases bo with
    | none =>
      have hstep : (altRun recur node parent ms ctx true (ml, none) r).2 =
          some ⟨ValidationUtil.asSchema r, (altSubRun recur node parent ms ctx r).1,
            (altSubRun recur node parent ms ctx r).2⟩ := rfl
      have hr := hacc1 _ hstep
      refine ⟨fun r' hr' => ?_, fun b hb => ?_⟩
      · rcases List.mem_cons.mp hr' with rfl | hmem
        · exact hr
        · exact hrest r' hmem
      · simp at hb
    | some b0 =>
      have hrw : (altRun recur node parent ms ctx true (ml, some b0) r).2 =
          if 0 < (altSubRun recur node parent ms ctx r).1.compare
              b0.validationResult then
            some ⟨ValidationUtil.asSchema r, (altSubRun recur node parent ms ctx r).1,
              (altSubRun recur node parent ms ctx r).2⟩
          else if (altSubRun recur node parent ms ctx r).1.compare
              b0.validationResult = 0 then
            some { b0 with
              matchingSchemas := b0.matchingSchemas.merge
                (altSubRun recur node parent ms ctx r).2
              validationResult := b0.validationResult.mergeEnumValues
                (altSubRun recur node parent ms ctx r).1 }
          else some b0 :=
        altStep_snd_oneOf (ml, some b0) (ValidationUtil.asSchema r)
          (altSubRun recur node parent ms ctx r).1
          (altSubRun recur node parent ms ctx r).2
      by_cases hgt : 0 < (altSubRun recur node parent ms ctx r).1.compare
          b0.validationResult
      · have hstep := hrw.trans (if_pos hgt)
        have hrle := hacc1 _ hstep
        refine ⟨fun r' hr' => ?_, fun b hb => ?_⟩
        · rcases List.mem_cons.mp hr' with rfl | hmem
          · exact hrle
          · exact hrest r' hmem
        · injection hb with hb
          subst hb
          have hanti := compare_antisymm
            (altSubRun recur node parent ms ctx r).1 b0.validationResult
          have hle : b0.validationResult.compare
              (altSubRun recur node parent ms ctx r).1 ≤ 0 := by omega
          exact compare_le_trans hle hrle
      · by_cases heq : (altSubRun recur node parent ms ctx r).1.compare
            b0.validationResult = 0
        · have hstep := hrw.trans ((if_neg hgt).trans (if_pos heq))
          have hb0 := hacc1 _ hstep
          have hb0' : b0.validationResult.compare b'.validationResult ≤ 0 := by
            rw [← compare_mergeEnumValues_left b0.validationResult
              (altSubRun recur node parent ms ctx r).1 b'.validationResult]
            exact hb0
          refine ⟨fun r' hr' => ?_, fun b hb => ?_⟩
          · rcases List.mem_cons.mp hr' with rfl | hmem
            · exact compare_le_trans (le_of_eq heq) hb0'
            · exact hrest r' hmem
          · injection hb with hb
            subst hb
            exact hb0'
        · have hstep := hrw.trans ((if_neg hgt).trans (if_neg heq))
          have hb0 := hacc1 _ hstep
          refine ⟨fun r' hr' => ?_, fun b hb => ?_⟩
          · rcases List.mem_cons.mp hr' with rfl | hmem
            · exact compare_le_trans (by omega) hb0
            · exact hrest r' hmem
          · injection hb with hb
            subst hb
            exact hb0

/-- **C3, counterexample.**  With `maxOneMatch = false` (`anyOf`) and two
problem-free alternatives, the deterministic ordering is bypassed: validating
`{a: 1}` against `anyOf: [{properties: {a: {}}}, {properties: {a: {}}}]`,
each alternative's fresh sub-run is clean with `propertiesMatches = 1`, the
two sub-results compare equal — so by the claim only the selected best
match's counters (1) would be merged into the parent — yet the merged
result's `propertiesMatches` is the pooled sum `2`.  With `anyOf: [{},
{properties: {a: {}}}]`, the second alternative's sub-result compares
strictly greater, yet the parent index receives 3 entries, more than the
best alternative's own 2 — the non-best alternative's entry is merged as
well. -/
theorem c3_counterexample :
    ((altSubRun (validateFuel 4) Ex.objA none (.collector (-1) none [])
        ⟨SchemaDraft.v2020_12⟩ (.inr Ex.alt2)).1.hasProblems = false) ∧
    ((altSubRun (validateFuel 4) Ex.objA none (.collector (-1) none [])
        ⟨SchemaDraft.v2020_12⟩ (.inr Ex.alt2)).1.propertiesMatches = 1) ∧
    ((altSubRun (validateFuel 4) Ex.objA none (.collector (-1) none [])
          ⟨SchemaDraft.v2020_12⟩ (.inr Ex.alt2)).1.compare
        (altSubRun (validateFuel 4) Ex.objA none (.collector (-1) none [])
          ⟨SchemaDraft.v2020_12⟩ (.inr Ex.alt2)).1 = 0) ∧
    ((testAlternatives (validateFuel 4) Ex.objA none [.inr Ex.alt2, .inr Ex.alt2]
        false (ValidationResult.empty, .collector (-1) none [])
        ⟨SchemaDraft.v2020_12⟩).1.1.propertiesMatches = 2) ∧
    ((altSubRun (validateFuel 4) Ex.objA none (.collector (-1) none [])
          ⟨SchemaDraft.v2020_12⟩ (.inr Ex.alt2)).1.compare
        (altSubRun (validateFuel 4) Ex.objA none (.collector (-1) none [])
          ⟨SchemaDraft.v2020_12⟩ (.inr Ex.alt1)).1 = 1) ∧
    ((altSubRun (validateFuel 4) Ex.objA none (.collector (-1) none [])
        ⟨SchemaDraft.v2020_12⟩ (.inr Ex.alt2)).2.schemas.length = 2) ∧
    ((testAlternatives (validateFuel 4) Ex.objA none [.inr Ex.alt1, .inr Ex.alt2]
        false (ValidationResult.empty, .collector (-1) none [])
        ⟨SchemaDraft.v2020_12⟩).1.2.schemas.length = 3) := by
  refine ⟨?_, ?_, ?_, ?_, ?_, ?_, ?_⟩ <;> decide

/-- **C3, amended.**  Every alternative runs against a fresh sub-accumulator
and sub-collector; a single best-match tracker is kept, and only its
contents reach the parent: (i) the parent's diagnostics are the incoming
ones, the `oneOf` multi-match diagnostic when due, and exactly the final
tracker's diagnostics; (ii) the tracker's diagnostics agree — in location,
severity and code — with a single alternative's fresh sub-run diagnostics
(enum-mismatch messages may be rewritten by equal-rank merging); (iii) under
`oneOf` (`maxOneMatch = true`, where the `anyOf` both-clean pooling branch
is unreachable) the tracker's result is maximal for the deterministic
pairwise ordering `compare` over every alternative's sub-result. -/
theorem c3_amended (recur : Recur) (node : JNode) (parent : Option ParentInfo)
    (alts : List JSONSchemaRef) (maxOne : Bool) (res : ValidationResult)
    (ms : ISchemaCollector) (ctx : EvaluationContext) :
    ((testAlternatives recur node parent alts maxOne (res, ms) ctx).1.1.problems =
      res.problems ++
        (if 1 < cleanMatchCount recur node parent ms ctx alts ∧ maxOne = true then
          [⟨⟨node.offset, 1⟩, none, none, Msg.matchesMultiple⟩] else []) ++
        ((altsFold recur node parent ms ctx maxOne alts).2.elim []
          fun b => b.validationResult.problems)) ∧
    (∀ b, (altsFold recur node parent ms ctx maxOne alts).2 = some b →
      ∃ r ∈ alts, List.Forall₂ problemsShape b.validationResult.problems
        (altSubRun recur node parent ms ctx r).1.problems) ∧
    ∀ b, (altsFold recur node parent ms ctx true alts).2 = some b →
      ∀ r ∈ alts, (altSubRun recur node parent ms ctx r).1.compare
        b.validationResult ≤ 0 := by
  refine ⟨testAlternatives_problems recur node parent alts maxOne res ms ctx,
    fun b hb => ?_, fun b hb r hr => ?_⟩
  · rw [altsFold_eq_foldl] at hb
    rcases foldl_altRun_tracker_src recur node parent ms ctx maxOne alts
        ([], none) b hb with h | ⟨b0, hb0, _⟩
    · exact h
    · exact absurd hb0 (by simp)
  · rw [altsFold_eq_foldl] at hb
    exact (foldl_altRun_compare_max recur node parent ms ctx alts ([], none) b hb).1
      r hr

theorem c3_amended_witness :
    (altSubRun (validateFuel 4) Ex.objA none (.collector (-1) none [])
        ⟨SchemaDraft.v2020_12⟩ (.inr Ex.alt1)).1.compare
      ((altsFold (validateFuel 4) Ex.objA none (.collector (-1) none [])
          ⟨SchemaDraft.v2020_12⟩ true [.inr Ex.alt1, .inr Ex.alt2]).2.elim
        ValidationResult.empty fun b => b.validationResult) ≤ 0 := by
  have h := (c3_amended (validateFuel 4) Ex.objA none [.inr Ex.alt1, .inr Ex.alt2]
    true ValidationResult.empty (.collector (-1) none [])
    ⟨SchemaDraft.v2020_12⟩).2.2
  rcases hfold : (altsFold (validateFuel 4) Ex.objA none (.collector (-1) none [])
      ⟨SchemaDraft.v2020_12⟩ true [.inr Ex.alt1, .inr Ex.alt2]).2 with _ | b
  · have hs := altsFold_snd_isSome (validateFuel 4) Ex.objA none
      (.collector (-1) none []) ⟨SchemaDraft.v2020_12⟩ true
      [.inr Ex.alt1, .inr Ex.alt2] (by simp)
    rw [hfold] at hs
    simp at hs
  · have h3 := h b hfold (.inr Ex.alt1) (by simp)
    simpa [hfold] using h3

/-! ## The focused collector (claim C1) -/

theorem collGood_refl (c : ISchemaCollector) : CollGood c c :=
  fun _ _ _ _ h => h

theorem collGood_comp {a b c : ISchemaCollector} (h1 : CollGood a b)
    (h2 : CollGood b c) : CollGood a c :=
  fun N ex base hN h => h2 N ex base hN (h1 N ex base hN h)

theorem collGood_foldl {σ : Type _} {α : Type _} (π : σ → ISchemaCollector)
    (g : σ → α → σ) :
    ∀ (l : List α) (b : σ),
      (∀ acc, ∀ x ∈ l, CollGood (π acc) (π (g acc x))) →
      CollGood (π b) (π (l.foldl g b)) := by
  intro l
  induction l with
  | nil => intro b _; exact collGood_refl _
  | cons x xs ih =>
    intro b hstep
    rw [List.foldl_cons]
    exact collGood_comp (hstep b x (List.mem_cons_self _ _))
      (ih _ fun acc y hy => hstep acc y (List.mem_cons_of_mem _ hy))

theorem focusedExt_refl (N : ℤ) (ex : Option ASTN) (base : List IApplicableSchema) :
    FocusedExt N ex base (.collector N ex base) :=
  ⟨[], by simp, fun e he => absurd he (List.not_mem_nil e)⟩

theorem focusedExt_add {N : ℤ} {ex : Option ASTN} {base : List IApplicableSchema}
    {c : ISchemaCollector} (h : FocusedExt N ex base c) {e : IApplicableSchema}
    (he : containsOffset (.node e.node) N = true) :
    FocusedExt N ex base (c.add e) := by
  obtain ⟨e1, rfl, he1⟩ := h
  refine ⟨e1 ++ [e], by simp [ISchemaCollector.add], fun x hx => ?_⟩
  rcases List.mem_append.mp hx with hx' | hx'
  · exact he1 x hx'
  · rw [List.mem_singleton.mp hx']
    exact he

theorem recurFocused_good {recur : Recur} (hrec : RecurFocused recur)
    {s : JSONSchema} (hcf : CombFree s) (n : Option ASTN) (p : Option ParentInfo)
    (res : ValidationResult) (ms : ISchemaCollector) (ctx : EvaluationContext) :
    CollGood ms (recur n p s res ms ctx).2 := by
  intro N ex base hN h
  obtain ⟨e1, rfl, he1⟩ := h
  obtain ⟨e2, hc', he2⟩ := hrec n p s res N ex (base ++ e1) ctx hcf hN
  refine ⟨e1 ++ e2, by rw [hc', List.append_assoc], fun e he => ?_⟩
  rcases List.mem_append.mp he with he' | he'
  · exact he1 e he'
  · exact he2 e he'

theorem combFree_empty : CombFree (.mk {}) :=
  .intro _ rfl rfl rfl rfl rfl (fun _ h => nomatch h) (fun _ h => nomatch h)
    (fun _ h => nomatch h) (fun _ _ h => nomatch h) (fun _ _ h => nomatch h)
    (fun _ h => nomatch h) (fun _ h => nomatch h) (fun _ h => nomatch h)
    (fun _ _ _ h => nomatch h) (fun _ h => nomatch h) (fun _ h => nomatch h)
    (fun _ _ _ h => nomatch h) (fun _ _ _ h => nomatch h) (fun _ h => nomatch h)

theorem combFreeRef_asSchema {r : JSONSchemaRef} (h : CombFreeRef r) :
    CombFree (ValidationUtil.asSchema r) := by
  cases h with
  | tt => exact combFree_empty
  | schema s hs => exact hs

theorem vNode_snd_combFree {recur : Recur} {node : JNode}
    {parent : Option ParentInfo} {s : JSONSchema} {res : ValidationResult}
    {ms : ISchemaCollector} {ctx : EvaluationContext} (h : CombFree s) :
    (vNode recur node parent s res ms ctx).2 = ms := by
  cases h with
  | intro s hAllOf hNot hAnyOf hOneOf hIf hThen hElse hItems1 hItems2
      hPrefixItems hAddItems hContains hUItems hProps hAddProps hUProps
      hDepSch hDeps hPropNames =>
    simp only [vNode, hAllOf, hNot, hAnyOf, hOneOf, hIf]

theorem listGetD_mem_or {α : Type _} :
    ∀ (l : List α) (i : ℕ) (d : α), l.getD i d ∈ l ∨ l.getD i d = d := by
  intro l
  induction l with
  | nil => intro i d; right; cases i <;> rfl
  | cons a as ih =>
    intro i d
    cases i with
    | zero => exact .inl (List.mem_cons_self _ _)
    | succ n =>
      rcases ih n d with h | h
      · exact .inl (List.mem_cons_of_mem _ h)
      · exact .inr h

theorem vArrPrefixStep_good {recur : Recur} (hrec : RecurFocused recur)
    (itemParent : Option ParentInfo) (ps : List JSONSchemaRef) (items : List JNode)
    (ctx : EvaluationContext) (hcf : ∀ r ∈ ps, CombFreeRef r) (st : ValState)
    (index : ℕ) :
    CollGood st.2 (vArrPrefixStep recur itemParent ps items ctx st index).2 := by
  have hs : CombFree (ValidationUtil.asSchema (ps.getD index (.inl true))) := by
    apply combFreeRef_asSchema
    rcases listGetD_mem_or ps index (.inl true) with h | h
    · exact hcf _ h
    · rw [h]; exact .tt
  exact recurFocused_good hrec hs _ _ _ _ _

theorem vArrPrefixItemsSection_good {recur : Recur} (hrec : RecurFocused recur)
    (itemParent : Option ParentInfo) (items : List JNode) (ctx : EvaluationContext)
    (pis : Option (List JSONSchemaRef))
    (hcf : ∀ ps, pis = some ps → ∀ r ∈ ps, CombFreeRef r) (st : ValState) :
    CollGood st.2 (vArrPrefixItemsSection recur itemParent items ctx pis st).2 := by
  unfold vArrPrefixItemsSection
  cases pis with
  | none => exact collGood_refl _
  | some ps =>
    refine collGood_foldl (fun (st : ValState) => st.2) _ _ _ ?_
    intro acc i _
    exact vArrPrefixStep_good hrec itemParent ps items ctx (hcf ps rfl) acc i

theorem vArrAddStep_good {recur : Recur} (hrec : RecurFocused recur)
    (itemParent : Option ParentInfo) (items : List JNode) (indexAfter : ℕ)
    {s0 : JSONSchema} (hs : CombFree s0) (ctx : EvaluationContext) (st : ValState)
    (index : ℕ) :
    CollGood st.2 (vArrAddStep recur itemParent items indexAfter s0 ctx st index).2 := by
  unfold vArrAddStep
  split_ifs
  · exact recurFocused_good hrec hs _ _ _ _ _
  · exact collGood_refl _

theorem vArrAdditionalSection_good {recur : Recur} (hrec : RecurFocused recur)
    (node : JNode) (itemParent : Option ParentInfo) (items : List JNode)
    (ctx : EvaluationContext) (ais : Option JSONSchemaRef)
    (hcf : ∀ r, ais = some r → CombFreeRef r) (indexAfter : ℕ) (st : ValState) :
    CollGood st.2
      (vArrAdditionalSection recur node itemParent items ctx ais indexAfter st).2 := by
  unfold vArrAdditionalSection
  cases ais with
  | none => exact collGood_refl _
  | some ref =>
    have hr : CombFreeRef ref := hcf ref rfl
    split_ifs
    · cases ref with
      | inl b => exact collGood_refl _
      | inr s0 =>
        cases hr with
        | schema s hs =>
          refine collGood_foldl (fun (st : ValState) => st.2) _ _ _ ?_
          intro acc i _
          exact vArrAddStep_good hrec itemParent items indexAfter hs ctx acc i
    · exact collGood_refl _

theorem vArrContainsSection_good (recur : Recur) (node : JNode)
    (itemParent : Option ParentInfo) (items : List JNode) (schema : JSONSchema)
    (ctx : EvaluationContext) (st : ValState) :
    CollGood st.2 (vArrContainsSection recur node itemParent items schema ctx st).2 := by
  unfold vArrContainsSection
  cases schema.containsS <;> exact collGood_refl _

theorem vArrUnevalStep_good {recur : Recur} (hrec : RecurFocused recur)
    (node : JNode) (itemParent : Option ParentInfo) (items : List JNode)
    {ref : JSONSchemaRef} (hcfr : CombFreeRef ref) (ctx : EvaluationContext)
    (st : ValState) (i : ℕ) :
    CollGood st.2 (vArrUnevalStep recur node itemParent items ref ctx st i).2 := by
  cases ref with
  | inl b =>
    cases b
    · simp only [vArrUnevalStep]
      split_ifs <;> exact collGood_refl _
    · simp only [vArrUnevalStep]
      split_ifs <;>
        first
          | exact collGood_refl _
          | exact recurFocused_good hrec (combFreeRef_asSchema .tt) _ _ _ _ _
  | inr s0 =>
    cases hcfr with
    | schema s hs =>
      simp only [vArrUnevalStep]
      split_ifs <;>
        first
          | exact collGood_refl _
          | exact recurFocused_good hrec hs _ _ _ _ _

theorem vArrUnevalItemsSection_good {recur : Recur} (hrec : RecurFocused recur)
    (node : JNode) (itemParent : Option ParentInfo) (items : List JNode)
    {schema : JSONSchema} (ctx : EvaluationContext)
    (hcf : ∀ r, schema.unevaluatedItems = some r → CombFreeRef r) (st : ValState) :
    CollGood st.2
      (vArrUnevalItemsSection recur node itemParent items schema ctx st).2 := by
  unfold vArrUnevalItemsSection
  cases hu : schema.unevaluatedItems with
  | none => exact collGood_refl _
  | some ref =>
    refine collGood_foldl (fun (st : ValState) => st.2) _ _ _ ?_
    intro acc i _
    exact vArrUnevalStep_good hrec node itemParent items (hcf ref hu) ctx acc i

theorem vArrayNode_good {recur : Recur} (hrec : RecurFocused recur)
    (node : JNode) (items : List JNode) {s : JSONSchema} (hcf : CombFree s)
    (res : ValidationResult) (ms : ISchemaCollector) (ctx : EvaluationContext) :
    CollGood ms (vArrayNode recur node items s res ms ctx).2 := by
  cases hcf with
  | intro s hAllOf hNot hAnyOf hOneOf hIf hThen hElse hItems1 hItems2
      hPrefixItems hAddItems hContains hUItems hProps hAddProps hUProps
      hDepSch hDeps hPropNames =>
  simp only [vArrayNode]
  refine collGood_comp ?_ (vArrUnevalItemsSection_good hrec _ _ _ _ hUItems _)
  refine collGood_comp ?_ (vArrContainsSection_good _ _ _ _ _ _ _)
  refine collGood_comp ?_ (vArrAdditionalSection_good hrec _ _ _ _ _ ?hadd _ _)
  refine collGood_comp ?_ (vArrPrefixItemsSection_good hrec _ _ _ _ ?hpre _)
  · exact collGood_refl _
  case hpre =>
    intro ps hps r hr
    split_ifs at hps with hd
    · exact hPrefixItems ps r hps hr
    · cases hit : s.items with
      | none => rw [hit] at hps; exact nomatch hps
      | some it =>
        cases it with
        | inl r0 => rw [hit] at hps; exact nomatch hps
        | inr l =>
          rw [hit] at hps
          injection hps with hps
          subst hps
          exact hItems2 _ r hit hr
  case hadd =>
    intro r0 hr0
    split_ifs at hr0 with hd
    · cases hit : s.items with
      | none => rw [hit] at hr0; exact nomatch hr0
      | some it =>
        cases it with
        | inl r1 =>
          rw [hit] at hr0
          injection hr0 with hr0
          subst hr0
          exact hItems1 _ hit
        | inr l => rw [hit] at hr0; exact nomatch hr0
    · cases hit : s.items with
      | none => rw [hit] at hr0; exact hAddItems _ hr0
      | some it =>
        cases it with
        | inl r1 =>
          rw [hit] at hr0
          injection hr0 with hr0
          subst hr0
          exact hItems1 _ hit
        | inr l => rw [hit] at hr0; exact hAddItems _ hr0

theorem vObjPropsStep_good {recur : Recur} (hrec : RecurFocused recur)
    (sp : List (String × JProperty)) {schema : JSONSchema} (ctx : EvaluationContext)
    (st : List String × ValidationResult × ISchemaCollector)
    (entry : String × JSONSchemaRef) (hcf : CombFreeRef entry.2) :
    CollGood st.2.2 (vObjPropsStep recur sp schema ctx st entry).2.2 := by
  obtain ⟨ename, eref⟩ := entry
  have hcf' : CombFreeRef eref := hcf
  cases eref with
  | inl b =>
    simp only [vObjPropsStep, propertyProcessed]
    split
    · split
      · first
          | exact collGood_refl _
          | (split_ifs <;> exact collGood_refl _)
      · exact collGood_refl _
    · exact collGood_refl _
  | inr propertySchema =>
    cases hcf' with
    | schema s0 hs0 =>
      simp only [vObjPropsStep, propertyProcessed]
      split
      · split
        · exact recurFocused_good hrec hs0 _ _ _ _ _
        · exact collGood_refl _
      · exact collGood_refl _

theorem vObjPropsSection_good {recur : Recur} (hrec : RecurFocused recur)
    (sp : List (String × JProperty)) {schema : JSONSchema} (ctx : EvaluationContext)
    (hcf : ∀ ps k r, schema.properties = some ps → (k, r) ∈ ps → CombFreeRef r)
    (st3 : List String × ValidationResult × ISchemaCollector) :
    CollGood st3.2.2 (vObjPropsSection recur sp schema ctx st3).2.2 := by
  unfold vObjPropsSection
  cases hps : schema.properties with
  | none => exact collGood_refl _
  | some propList =>
    refine collGood_foldl
      (fun (st : List String × ValidationResult × ISchemaCollector) => st.2.2)
      _ _ _ ?_
    intro acc entry hentry
    exact vObjPropsStep_good hrec sp ctx acc entry
      (hcf propList entry.1 entry.2 hps hentry)

theorem vObjAddPropsStep_good {recur : Recur} (hrec : RecurFocused recur)
    (sp : List (String × JProperty)) {schema : JSONSchema} {apRef : JSONSchemaRef}
    (hcfr : CombFreeRef apRef) (ctx : EvaluationContext)
    (st : List String × ValidationResult × ISchemaCollector) (propertyName : String) :
    CollGood st.2.2 (vObjAddPropsStep recur sp schema apRef ctx st propertyName).2.2 := by
  cases apRef with
  | inl b =>
    cases b <;>
      · simp only [vObjAddPropsStep, propertyProcessed]
        split
        · split
          · exact collGood_refl _
          · exact collGood_refl _
        · exact collGood_refl _
  | inr apSchema =>
    cases hcfr with
    | schema s0 hs0 =>
      simp only [vObjAddPropsStep, propertyProcessed]
      split
      · split
        · exact recurFocused_good hrec hs0 _ _ _ _ _
        · exact collGood_refl _
      · exact collGood_refl _

theorem vObjAddPropsSection_good {recur : Recur} (hrec : RecurFocused recur)
    (sp : List (String × JProperty)) {schema : JSONSchema} (ctx : EvaluationContext)
    (hcf : ∀ r, schema.additionalProperties = some r → CombFreeRef r)
    (st3 : List String × ValidationResult × ISchemaCollector) :
    CollGood st3.2.2 (vObjAddPropsSection recur sp schema ctx st3).2.2 := by
  unfold vObjAddPropsSection
  cases hap : schema.additionalProperties with
  | none => exact collGood_refl _
  | some apRef =>
    refine collGood_foldl
      (fun (st : List String × ValidationResult × ISchemaCollector) => st.2.2)
      _ _ _ ?_
    intro acc name _
    exact vObjAddPropsStep_good hrec sp (hcf apRef hap) ctx acc name

theorem vObjUnevalStep_good {recur : Recur} (hrec : RecurFocused recur)
    (sp : List (String × JProperty)) {schema : JSONSchema} {upRef : JSONSchemaRef}
    (hcfr : CombFreeRef upRef) (ctx : EvaluationContext)
    (st : List String × ValidationResult × ISchemaCollector) (propertyName : String) :
    CollGood st.2.2 (vObjUnevalStep recur sp schema upRef ctx st propertyName).2.2 := by
  cases upRef with
  | inl b =>
    cases b <;>
      · simp only [vObjUnevalStep]
        split_ifs <;>
          first
            | exact collGood_refl _
            | (split <;>
                first
                  | exact collGood_refl _
                  | (split <;> exact collGood_refl _))
  | inr upSchema =>
    cases hcfr with
    | schema s0 hs0 =>
      simp only [vObjUnevalStep]
      split_ifs <;>
        first
          | exact collGood_refl _
          | (split <;>
              first
                | exact recurFocused_good hrec hs0 _ _ _ _ _
                | exact collGood_refl _
                | (split <;>
                    first
                      | exact recurFocused_good hrec hs0 _ _ _ _ _
                      | exact collGood_refl _))

theorem vObjMarkStep_good (st : List String × ValidationResult × ISchemaCollector)
    (name : String) : CollGood st.2.2 (vObjMarkStep st name).2.2 :=
  collGood_refl _

theorem vObjUnevalPropsSection_good {recur : Recur} (hrec : RecurFocused recur)
    (sp : List (String × JProperty)) {schema : JSONSchema} (ctx : EvaluationContext)
    (hcf : ∀ r, schema.unevaluatedProperties = some r → CombFreeRef r)
    (st3 : List String × ValidationResult × ISchemaCollector) :
    CollGood st3.2.2 (vObjUnevalPropsSection recur sp schema ctx st3).2.2 := by
  unfold vObjUnevalPropsSection
  cases hup : schema.unevaluatedProperties with
  | none => exact collGood_refl _
  | some upRef =>
    exact collGood_comp
      (collGood_foldl
        (fun (st : List String × ValidationResult × ISchemaCollector) => st.2.2)
        (vObjUnevalStep recur sp schema upRef ctx) st3.1 ([], st3.2)
        (fun acc name _ => vObjUnevalStep_good hrec sp (hcf upRef hup) ctx acc name))
      (collGood_foldl
        (fun (st : List String × ValidationResult × ISchemaCollector) => st.2.2)
        vObjMarkStep
        (st3.1.foldl (vObjUnevalStep recur sp schema upRef ctx) ([], st3.2)).1
        (st3.1, (st3.1.foldl (vObjUnevalStep recur sp schema upRef ctx) ([], st3.2)).2)
        (fun acc name _ => vObjMarkStep_good acc name))

theorem vObjDepReqStep_good (recur : Recur) (node : JNode)
    (parent : Option ParentInfo) (sp : List (String × JProperty))
    (ctx : EvaluationContext) (st : ValState) (entry : String × List String) :
    CollGood st.2 (vObjDepReqStep recur node parent sp ctx st entry).2 := by
  unfold vObjDepReqStep
  split_ifs <;> exact collGood_refl _

theorem vObjDepReqSection_good (recur : Recur) (node : JNode)
    (parent : Option ParentInfo) (sp : List (String × JProperty))
    (schema : JSONSchema) (ctx : EvaluationContext) (st : ValState) :
    CollGood st.2 (vObjDepReqSection recur node parent sp schema ctx st).2 := by
  unfold vObjDepReqSection
  cases schema.dependentRequired with
  | none => exact collGood_refl _
  | some deps =>
    refine collGood_foldl (fun (st : ValState) => st.2) _ _ _ ?_
    intro acc entry _
    exact vObjDepReqStep_good recur node parent sp ctx acc entry

theorem vObjDepSchStep_good {recur : Recur} (hrec : RecurFocused recur)
    (node : JNode) (parent : Option ParentInfo) (sp : List (String × JProperty))
    (ctx : EvaluationContext) (st : ValState) (entry : String × JSONSchemaRef)
    (hcf : ∀ s0, entry.2 = .inr s0 → CombFree s0) :
    CollGood st.2 (vObjDepSchStep recur node parent sp ctx st entry).2 := by
  obtain ⟨k, eref⟩ := entry
  have hcf' : ∀ s0, eref = .inr s0 → CombFree s0 := hcf
  cases eref with
  | inl b => exact collGood_refl _
  | inr s0 =>
    have hs := hcf' s0 rfl
    unfold vObjDepSchStep
    split_ifs <;>
      first
        | exact recurFocused_good hrec hs _ _ _ _ _
        | exact collGood_refl _

theorem vObjDepSchSection_good {recur : Recur} (hrec : RecurFocused recur)
    (node : JNode) (parent : Option ParentInfo) (sp : List (String × JProperty))
    {schema : JSONSchema} (ctx : EvaluationContext)
    (hcf : ∀ ps k r, schema.dependentSchemas = some ps → (k, r) ∈ ps → CombFreeRef r)
    (st : ValState) :
    CollGood st.2 (vObjDepSchSection recur node parent sp schema ctx st).2 := by
  unfold vObjDepSchSection
  cases hd : schema.dependentSchemas with
  | none => exact collGood_refl _
  | some deps =>
    refine collGood_foldl (fun (st : ValState) => st.2) _ _ _ ?_
    intro acc entry hentry
    refine vObjDepSchStep_good hrec node parent sp ctx acc entry ?_
    intro s0 he
    have h := hcf deps entry.1 entry.2 hd hentry
    rw [he] at h
    cases h with
    | schema s hs => exact hs

theorem vObjDepsStep_good {recur : Recur} (hrec : RecurFocused recur)
    (node : JNode) (parent : Option ParentInfo) (sp : List (String × JProperty))
    (ctx : EvaluationContext) (st : ValState)
    (entry : String × Sum (List String) JSONSchemaRef)
    (hcf : ∀ r, entry.2 = .inr r → CombFreeRef r) :
    CollGood st.2 (vObjDepsStep recur node parent sp ctx st entry).2 := by
  obtain ⟨k, edep⟩ := entry
  have hcf' : ∀ r, edep = .inr r → CombFreeRef r := hcf
  cases edep with
  | inl names =>
    unfold vObjDepsStep
    split_ifs <;> exact collGood_refl _
  | inr ref =>
    have hr := combFreeRef_asSchema (hcf' ref rfl)
    unfold vObjDepsStep
    split_ifs <;>
      first
        | exact recurFocused_good hrec hr _ _ _ _ _
        | exact collGood_refl _

theorem vObjDepsSection_good {recur : Recur} (hrec : RecurFocused recur)
    (node : JNode) (parent : Option ParentInfo) (sp : List (String × JProperty))
    {schema : JSONSchema} (ctx : EvaluationContext)
    (hcf : ∀ ps k r, schema.dependencies = some ps → (k, .inr r) ∈ ps → CombFreeRef r)
    (st : ValState) :
    CollGood st.2 (vObjDepsSection recur node parent sp schema ctx st).2 := by
  unfold vObjDepsSection
  cases hd : schema.dependencies with
  | none => exact collGood_refl _
  | some deps =>
    refine collGood_foldl (fun (st : ValState) => st.2) _ _ _ ?_
    intro acc entry hentry
    refine vObjDepsStep_good hrec node parent sp ctx acc entry ?_
    intro r he
    refine hcf deps entry.1 r hd ?_
    rw [← he]
    exact hentry

theorem vObjPropNamesSection_good (recur : Recur) (properties : List JProperty)
    (schema : JSONSchema) (ctx : EvaluationContext) (st : ValState) :
    CollGood st.2 (vObjPropNamesSection recur properties schema ctx st).2 := by
  unfold vObjPropNamesSection
  cases schema.propertyNames <;> exact collGood_refl _

theorem vObjectNode_good {recur : Recur} (hrec : RecurFocused recur)
    (node : JNode) (properties : List JProperty) (parent : Option ParentInfo)
    {s : JSONSchema} (hcf : CombFree s) (res : ValidationResult)
    (ms : ISchemaCollector) (ctx : EvaluationContext) :
    CollGood ms (vObjectNode recur node properties parent s res ms ctx).2 := by
  cases hcf with
  | intro s hAllOf hNot hAnyOf hOneOf hIf hThen hElse hItems1 hItems2
      hPrefixItems hAddItems hContains hUItems hProps hAddProps hUProps
      hDepSch hDeps hPropNames =>
  simp only [vObjectNode]
  refine collGood_comp ?_ (vObjPropNamesSection_good _ _ _ _ _)
  refine collGood_comp ?_ (vObjDepsSection_good hrec _ _ _ _ hDeps _)
  refine collGood_comp ?_ (vObjDepSchSection_good hrec _ _ _ _ hDepSch _)
  refine collGood_comp ?_ (vObjDepReqSection_good _ _ _ _ _ _ _)
  refine collGood_comp ?_ (vObjUnevalPropsSection_good hrec _ _ hUProps _)
  refine collGood_comp ?_ (vObjAddPropsSection_good hrec _ _ hAddProps _)
  refine collGood_comp ?_ (vObjPropsSection_good hrec _ _ hProps _)
  exact collGood_refl _

/-- The fuel-indexed validator preserves the focused-collector invariant on
hereditarily combinator-free schemas, at every fuel. -/
theorem validateFuel_focused (f : ℕ) : RecurFocused (validateFuel f) := by
  induction f with
  | zero =>
    intro n p s res N ex entries ctx hcf hN
    exact focusedExt_refl N ex entries
  | succ f ih =>
    intro n p s res N ex entries ctx hcf hN
    cases n with
    | none => exact focusedExt_refl N ex entries
    | some nn =>
      show FocusedExt N ex entries
        ((validateStep (validateFuel f)) (some nn) p s res
          (.collector N ex entries) ctx).2
      simp only [validateStep]
      split_ifs with hni
      · have hinctrue : (ISchemaCollector.collector N ex entries).includeNode nn
            = true := hni
        cases nn with
        | prop pp => exact ih _ _ s res N ex entries ctx hcf hN
        | node nd =>
          have hinc : containsOffset (.node nd) N = true := by
            simp only [ISchemaCollector.includeNode, Bool.and_eq_true,
              Bool.or_eq_true] at hinctrue
            rcases hinctrue with ⟨h2 | h2, -⟩
            · rw [beq_iff_eq] at h2
              omega
            · exact h2
          have hv : (vNode (validateFuel f) nd p s res
              (.collector N ex entries) ctx).2 = .collector N ex entries :=
            vNode_snd_combFree hcf
          cases nd with
          | obj o l properties =>
            refine focusedExt_add ?_ hinc
            rw [hv]
            exact vObjectNode_good ih (.obj o l properties) properties p hcf _ _
              ctx N ex entries hN (focusedExt_refl N ex entries)
          | arr o l items =>
            refine focusedExt_add ?_ hinc
            rw [hv]
            exact vArrayNode_good ih (.arr o l items) items hcf _ _ ctx N ex
              entries hN (focusedExt_refl N ex entries)
          | str o l v =>
            refine focusedExt_add ?_ hinc
            show FocusedExt N ex entries (vNode (validateFuel f) (.str o l v) p s
              res (.collector N ex entries) ctx).2
            rw [hv]
            exact focusedExt_refl N ex entries
          | num o l v i =>
            refine focusedExt_add ?_ hinc
            show FocusedExt N ex entries (vNode (validateFuel f) (.num o l v i) p s
              res (.collector N ex entries) ctx).2
            rw [hv]
            exact focusedExt_refl N ex entries
          | boolean o l b =>
            refine focusedExt_add ?_ hinc
            show FocusedExt N ex entries (vNode (validateFuel f) (.boolean o l b)
              p s res (.collector N ex entries) ctx).2
            rw [hv]
            exact focusedExt_refl N ex entries
          | nullNode o l =>
            refine focusedExt_add ?_ hinc
            show FocusedExt N ex entries (vNode (validateFuel f) (.nullNode o l)
              p s res (.collector N ex entries) ctx).2
            rw [hv]
            exact focusedExt_refl N ex entries
      · exact focusedExt_refl N ex entries

/-- **C1, counterexample.**  Validating `{a: "x", b: "y"}` (span `[0,12)`,
values at offsets 3 and 8) against `{allOf: [{properties: {a: {}, b: {}}}]}`
with focus offset 3: the `allOf` branch runs in a fresh *unfocused*
sub-collector (`newSub` drops the focus), whose entries are merged back
wholesale, so the returned index contains an entry for the value node at
offset 8, whose span does not contain the focus offset. -/
theorem c1_counterexample :
    ¬ ∀ e ∈ JSONDocument.getMatchingSchemas (some (.node Ex.objAB))
        Ex.allOfSchema 3 none,
      containsOffset (.node e.node) 3 = true := by
  decide

/-- **C1, amended.**  For a hereditarily combinator-free schema (no
`allOf`/`anyOf`/`oneOf`/`not`/`if` anywhere, sub-schemas being schema
objects or `true`) and any focus offset `N ≥ 0`, every index entry returned
by `getMatchingSchemas` has a node whose span contains `N`: the validator
only recurses into nodes accepted by the focused collector's `include`
check, and without combinators no unfocused sub-collector is ever merged
back. -/
theorem c1_amended (root : Option ASTN) (s : JSONSchema) (N : ℤ)
    (hcf : CombFree s) (hN : 0 ≤ N) :
    ∀ e ∈ JSONDocument.getMatchingSchemas root s N none,
      containsOffset (.node e.node) N = true := by
  intro e he
  cases root with
  | none =>
    simp only [JSONDocument.getMatchingSchemas] at he
    exact absurd he (List.not_mem_nil e)
  | some r =>
    obtain ⟨extra, hc, hext⟩ := validateFuel_focused (fuelBound (some r) s)
      (some r) none s ValidationResult.empty N none [] ⟨ValidationUtil.getSchemaDraft s⟩
      hcf hN
    simp only [JSONDocument.getMatchingSchemas, SchemaValidator.validate] at he
    rw [hc] at he
    simp only [ISchemaCollector.schemas, List.nil_append] at he
    exact hext e he

theorem combFree_innerSchema : CombFree Ex.innerSchema := by
  refine .intro _ rfl rfl rfl rfl rfl (fun _ h => nomatch h) (fun _ h => nomatch h)
    (fun _ h => nomatch h) (fun _ _ h => nomatch h) (fun _ _ h => nomatch h)
    (fun _ h => nomatch h) (fun _ h => nomatch h) (fun _ h => nomatch h) ?_
    (fun _ h => nomatch h) (fun _ h => nomatch h) (fun _ _ _ h => nomatch h)
    (fun _ _ _ h => nomatch h) (fun _ h => nomatch h)
  intro ps k r hps hr
  injection hps with hps
  subst hps
  simp only [List.mem_cons, List.not_mem_nil, or_false, Prod.mk.injEq] at hr
  rcases hr with ⟨-, rfl⟩ | ⟨-, rfl⟩ <;> exact .schema _ combFree_empty

theorem c1_amended_witness :
    (JSONDocument.getMatchingSchemas (some (.node Ex.objAB)) Ex.innerSchema 3
        none).all (fun e => containsOffset (.node e.node) 3) = true := by
  rw [List.all_eq_true]
  intro e he
  exact c1_amended (some (.node Ex.objAB)) Ex.innerSchema 3 combFree_innerSchema
    (by decide) e he

end KYaml
